import Mathlib

/-!
# Verification of the Multi-Tenant Gateway Core (moltbot)

Shallow embedding of the multi-tenant gateway subsystem:
tenant-path sanitization (`sanitizeUserId`, `getUserWorkspacePath`),
the layered workspace file resolver (`readWorkspaceFile`),
the `MultiTenantGatewayManager` state machine (token authentication,
pending-request counters, idle/LRU eviction, statistics), and the
`ConfigSyncService` retry/backoff state machine.

JavaScript `Map` objects are modelled as association lists in insertion
order (`mapGet` returns the first binding, `mapSet` updates in place or
appends, `mapDelete` removes the key); machine numbers are `Int`/`Nat`;
functions that can throw return `Except`; remote HTTP outcomes are passed
in as explicit values of an outcome type.
-/

namespace Moltbot

/-! ## Association-list model of JS `Map` (insertion order) -/

/-- First binding for key `k`, like `Map.prototype.get`. -/
def mapGet {α : Type} (m : List (String × α)) (k : String) : Option α :=
  (m.find? (fun e => e.1 = k)).map Prod.snd

/-- `Map.prototype.set`: update an existing key in place (keeping its
iteration position) or append a new binding at the end. -/
def mapSet {α : Type} (m : List (String × α)) (k : String) (v : α) : List (String × α) :=
  if (m.find? (fun e => e.1 = k)).isSome then
    m.map (fun e => if e.1 = k then (k, v) else e)
  else
    m ++ [(k, v)]

/-- `Map.prototype.delete`: remove the bindings for `k`. -/
def mapDelete {α : Type} (m : List (String × α)) (k : String) : List (String × α) :=
  m.filter (fun e => e.1 ≠ k)

/-- `Map.prototype.has`. -/
def mapHas {α : Type} (m : List (String × α)) (k : String) : Bool :=
  (mapGet m k).isSome

/-! ## Tenant path sanitization (`src/config/multi-tenant.ts`, quoted in
`开发文档/saas/deployment.md` lines 1042-1094) -/

/-- Path separator characters removed by `.replace(/[/\\]/g, "")`. -/
def isSep (c : Char) : Bool :=
  c = '/' || c = '\\'

/-- Characters allowed through by the character class `[a-zA-Z0-9_-]`
(ASCII ranges, as in the JS regex). -/
def isSafeChar (c : Char) : Bool :=
  (97 ≤ c.toNat && c.toNat ≤ 122) || (65 ≤ c.toNat && c.toNat ≤ 90) ||
    (48 ≤ c.toNat && c.toNat ≤ 57) || c = '_' || c = '-'

/-- `.replace(/\.\./g, "")`: remove non-overlapping occurrences of `..`
scanning left to right. -/
def stripDotDot : List Char → List Char
  | [] => []
  | [c] => [c]
  | c1 :: c2 :: rest =>
    if c1 = '.' ∧ c2 = '.' then stripDotDot rest
    else c1 :: stripDotDot (c2 :: rest)

/-- The three-step sanitization pipeline of `sanitizeUserId`:
remove `..`, remove path separators, then replace every character
outside `[a-zA-Z0-9_-]` with `_`. -/
def sanitizeChars (cs : List Char) : List Char :=
  ((stripDotDot cs).filter (fun c => !isSep c)).map (fun c => if isSafeChar c then c else '_')

/-- `sanitizeUserId` from `config/multi-tenant.ts`: sanitize, then throw
(`Except.error`) when the sanitized result is empty or longer than 128
characters, otherwise return the sanitized id. -/
def sanitizeUserId (userId : String) : Except String String :=
  let sanitized := sanitizeChars userId.data
  if sanitized.isEmpty then
    .error "Invalid user ID: cannot be empty after sanitization"
  else if sanitized.length > 128 then
    .error "Invalid user ID: too long (max 128 characters)"
  else
    .ok (String.mk sanitized)

/-- `getUserWorkspacePath`:
`path.join(workspaceRoot, "users", safeUserId)`, with `path.join`
(an external node primitive) modelled as `/`-separated concatenation;
the workspace root is passed explicitly instead of being read from the
global configuration. The sanitization failure propagates. -/
def getUserWorkspacePath (workspaceRoot : String) (userId : String) : Except String String :=
  (sanitizeUserId userId).map (fun safe => workspaceRoot ++ "/users/" ++ safe)

/-! ## Workspace file resolver (`src/agents/workspace-resolver.ts`) -/

/-- Modelled from the spec: node's `path.basename` (external to the repo) —
the final path segment of a `/`-separated path, ignoring trailing
separators. -/
def basename (f : String) : String :=
  String.mk (((f.data.reverse.dropWhile (fun c => c = '/')).takeWhile (fun c => c ≠ '/')).reverse)

/-- Modelled from the spec: the bootstrap-file name constants imported from
`agents/workspace.js` (not under `src/`); the spec lists identifiers for
the agent manifest, soul, tools, identity, user-profile, heartbeat,
bootstrap and memory files. -/
def DEFAULT_AGENTS_FILENAME : String := "AGENTS.md"

def DEFAULT_SOUL_FILENAME : String := "SOUL.md"

def DEFAULT_TOOLS_FILENAME : String := "TOOLS.md"

def DEFAULT_IDENTITY_FILENAME : String := "IDENTITY.md"

def DEFAULT_USER_FILENAME : String := "USER.md"

def DEFAULT_HEARTBEAT_FILENAME : String := "HEARTBEAT.md"

def DEFAULT_BOOTSTRAP_FILENAME : String := "BOOTSTRAP.md"

def DEFAULT_MEMORY_FILENAME : String := "MEMORY.md"

/-- `DEFAULT_FILE_CONTENT`: built-in default content for bootstrap files
when neither the user's custom file nor a template file exists. -/
def DEFAULT_FILE_CONTENT : List (String × String) :=
  [(DEFAULT_AGENTS_FILENAME,
    "# Agent Configuration\n\nThis file configures your AI agent's behavior and capabilities.\n"),
   (DEFAULT_SOUL_FILENAME,
    "# Soul\n\nDefine your agent's personality and communication style.\n"),
   (DEFAULT_TOOLS_FILENAME,
    "# Tools\n\nConfigure available tools and their permissions.\n"),
   (DEFAULT_IDENTITY_FILENAME,
    "# Identity\n\nDefine your agent's identity and role.\n"),
   (DEFAULT_USER_FILENAME,
    "# User\n\nInformation about the user for personalization.\n"),
   (DEFAULT_HEARTBEAT_FILENAME,
    "# Heartbeat\n\nScheduled tasks and periodic actions.\n"),
   (DEFAULT_BOOTSTRAP_FILENAME,
    "# Bootstrap\n\nInitial setup and onboarding instructions.\n"),
   (DEFAULT_MEMORY_FILENAME,
    "# Memory\n\nAgent's persistent memory and learned information.\n")]

/-- `readWorkspaceFile` from `createWorkspaceFileResolver`: reduce the
filename to its basename, then try the user's custom directory, the
template directory, and finally the built-in defaults. The two on-disk
layers are modelled as partial maps from basenames to file content
(`tryReadFile` translating ENOENT to `none`). The built-in branch keeps
the JS truthiness test `if (defaultContent)`, which rejects an empty
default string. -/
def readWorkspaceFile (customLayer templateLayer : String → Option String)
    (filename : String) : Option String :=
  let safeName := basename filename
  match customLayer safeName with
  | some customContent => some customContent
  | none =>
    match templateLayer safeName with
    | some templateContent => some templateContent
    | none =>
      match mapGet DEFAULT_FILE_CONTENT safeName with
      | some defaultContent => if defaultContent ≠ "" then some defaultContent else none
      | none => none

/-! ## Multi-tenant gateway manager (`src/gateway/multi-tenant/manager.ts`,
`src/unnamed/part_004`) -/

/-- `status ∈ {active, suspended, expired}`. -/
inductive UserStatus
  | active
  | suspended
  | expired
deriving DecidableEq, Repr

/-- `UserInstance` from `config/types.multi-tenant.ts`, as used by the
manager. The opaque `OpenClawConfig` payload is represented by a
`String`. -/
structure UserInstance where
  userId : String
  config : String
  workspacePath : String
  configPath : String
  lastActivityAt : Int
  pendingRequests : Int
  status : UserStatus
  llmApiKey : Option String
deriving DecidableEq, Repr

/-- Eviction reasons passed to `evictUser`. -/
inductive EvictReason
  | idle
  | lru
  | manual
deriving DecidableEq, Repr

/-- `MultiTenantManagerEvent`: events delivered to listeners by `emit`.
Emitting an event is modelled by appending it to the state's event log. -/
inductive ManagerEvent
  | userLoaded (userId : String)
  | userEvicted (userId : String) (reason : EvictReason)
  | userSuspended (userId : String)
  | userExpired (userId : String)
  | configSynced (usersUpdated : Nat) (timestamp : String)
  | syncFailed (error : String) (consecutiveFailures : Nat)
deriving DecidableEq, Repr

/-- The manager options relevant to the modelled behavior (timer handles
and the logger are environmental). -/
structure ManagerOptions where
  maxCachedUsers : Nat
  userIdleTimeoutMs : Int
  cloudBackendUrl : String
  workspaceRoot : String
  configRoot : String
  templatePath : String
deriving DecidableEq, Repr

/-- The mutable fields of `MultiTenantGatewayManager`. `workspaceResolvers`
keeps only its key set (resolver handles are pure values determined by the
user id and paths); `events` is the log of emitted events. -/
structure ManagerState where
  userInstances : List (String × UserInstance)
  tokenToUserId : List (String × String)
  configCache : List (String × String)
  workspaceResolvers : List String
  events : List ManagerEvent
  cacheHits : Nat
  cacheMisses : Nat
  lastSyncAt : Option String
  syncFailures : Nat
deriving DecidableEq, Repr

/-- `initializeUserInstance`: provision directories (filesystem effects are
environmental), build the instance with `pendingRequests = 0` and
`lastActivityAt = now`, cache it, record the config and resolver, and emit
`user-loaded`. Call sites always pass an already-sanitized id, so the
re-sanitization inside `ensureUserDirectories` is the identity
(`sanitizeUserId_of_safe` below) and the paths are built directly. -/
def initializeUserInstance (opts : ManagerOptions) (now : Int) (userId : String)
    (config : String) (cloudStatus : Option UserStatus) (cloudKey : Option String)
    (s : ManagerState) : UserInstance × ManagerState :=
  let inst : UserInstance :=
    { userId := userId
      config := config
      workspacePath := opts.workspaceRoot ++ "/users/" ++ userId
      configPath := opts.configRoot ++ "/users/" ++ userId ++ "/config.json"
      lastActivityAt := now
      pendingRequests := 0
      status := cloudStatus.getD .active
      llmApiKey := cloudKey }
  (inst,
    { s with
      userInstances := mapSet s.userInstances userId inst
      configCache := mapSet s.configCache userId config
      workspaceResolvers :=
        if s.workspaceResolvers.contains userId then s.workspaceResolvers
        else s.workspaceResolvers ++ [userId]
      events := s.events ++ [.userLoaded userId] })

/-- The synchronous `authenticateToken` variant (manager lines 133-152):
local lookup only; suspended/expired instances emit one event and fail. -/
def authenticateTokenSync (s : ManagerState) (token : String) :
    Option String × ManagerState :=
  match mapGet s.tokenToUserId token with
  | none => (none, s)
  | some userId =>
    match mapGet s.userInstances userId with
    | none => (none, s)
    | some inst =>
      match inst.status with
      | .suspended => (none, { s with events := s.events ++ [.userSuspended userId] })
      | .expired => (none, { s with events := s.events ++ [.userExpired userId] })
      | .active => (some userId, s)

/-- The wire data of the remote `verify-token` call. -/
structure VerifyRecord where
  user_id : String
  status : UserStatus
  openclaw_config : String
deriving DecidableEq, Repr

/-- Outcome of the `fetch` to `POST .../verify-token`. `httpOk none`
models a 2xx body whose `data.user_id` is absent. `transportFailure`
models a thrown fetch/JSON/timeout error. -/
inductive VerifyOutcome
  | httpOk (record : Option VerifyRecord)
  | unauthorized
  | httpError (status : Nat)
  | transportFailure
deriving DecidableEq, Repr

/-- The asynchronous `authenticateToken` variant (manager lines 566-650):
local cache first, then remote verification. The whole remote branch sits
in a `try`/`catch` that returns `null`, so the function is total: a
sanitization failure on the returned `user_id` or a transport failure is
caught and yields `none` with the state unchanged. -/
def authenticateToken (opts : ManagerOptions) (now : Int) (verify : VerifyOutcome)
    (s : ManagerState) (token : String) : Option String × ManagerState :=
  let missBranch : Option String × ManagerState :=
    if opts.cloudBackendUrl = "" then (none, s)
    else
      match verify with
      | .unauthorized => (none, s)
      | .httpError _ => (none, s)
      | .transportFailure => (none, s)
      | .httpOk none => (none, s)
      | .httpOk (some r) =>
        if r.user_id = "" then (none, s)
        else
          match sanitizeUserId r.user_id with
          | .error _ => (none, s)
          | .ok userId =>
            let s1 := { s with tokenToUserId := mapSet s.tokenToUserId token userId }
            if mapHas s1.userInstances userId then (some userId, s1)
            else
              let init := initializeUserInstance opts now userId r.openclaw_config
                (some r.status) none s1
              (some userId, init.2)
  match mapGet s.tokenToUserId token with
  | some cachedUserId =>
    match mapGet s.userInstances cachedUserId with
    | some inst =>
      match inst.status with
      | .suspended =>
        (none, { s with events := s.events ++ [.userSuspended cachedUserId] })
      | .expired =>
        (none, { s with events := s.events ++ [.userExpired cachedUserId] })
      | .active => (some cachedUserId, s)
    | none => missBranch
  | none => missBranch

/-- `getUserInstance`: cache hit refreshes `lastActivityAt` and bumps
`cacheHits`; a miss bumps `cacheMisses`, reads the on-disk config
(passed in as `diskConfig`) and initializes the instance when present.
A sanitization failure throws without mutating state. -/
def getUserInstance (opts : ManagerOptions) (now : Int) (diskConfig : Option String)
    (s : ManagerState) (userId : String) : Option UserInstance × ManagerState :=
  match sanitizeUserId userId with
  | .error _ => (none, s)
  | .ok safeUserId =>
    match mapGet s.userInstances safeUserId with
    | some cached =>
      let refreshed := { cached with lastActivityAt := now }
      (some refreshed,
        { s with
          cacheHits := s.cacheHits + 1
          userInstances := mapSet s.userInstances safeUserId refreshed })
    | none =>
      let s1 := { s with cacheMisses := s.cacheMisses + 1 }
      match diskConfig with
      | none => (none, s1)
      | some config =>
        let init := initializeUserInstance opts now safeUserId config none none s1
        (some init.1, init.2)

/-- `CloudUserConfig`: the sync-record shape consumed by
`updateUserConfigs`. -/
structure CloudUserConfig where
  userId : String
  gatewayToken : String
  openclawConfig : String
  status : UserStatus
  llmApiKey : Option String
deriving DecidableEq, Repr

/-- One iteration of the `updateUserConfigs` loop: sanitize the id, insert
the token binding, persist the config (disk write environmental), and
patch the cached instance in place when loaded. A failing record
(sanitization throw) is caught, logged and skipped. -/
def updateUserConfigsStep (s : ManagerState) (c : CloudUserConfig) : ManagerState :=
  match sanitizeUserId c.userId with
  | .error _ => s
  | .ok userId =>
    let s1 := { s with tokenToUserId := mapSet s.tokenToUserId c.gatewayToken userId }
    match mapGet s1.userInstances userId with
    | some existing =>
      let patched :=
        { existing with
          config := c.openclawConfig
          status := c.status
          llmApiKey := c.llmApiKey }
      { s1 with
        userInstances := mapSet s1.userInstances userId patched
        configCache := mapSet s1.configCache userId c.openclawConfig }
    | none => s1

/-- `updateUserConfigs`: apply the batch, then set `lastSyncAt`, reset
`syncFailures` and emit `config-synced` with the number of records that
were applied without throwing. -/
def updateUserConfigs (nowIso : String) (s : ManagerState)
    (configs : List CloudUserConfig) : ManagerState :=
  let s1 := configs.foldl updateUserConfigsStep s
  let updated := (configs.filter (fun c => (sanitizeUserId c.userId).isOk)).length
  { s1 with
    lastSyncAt := some nowIso
    syncFailures := 0
    events := s1.events ++ [.configSynced updated nowIso] }

/-- `recordSyncFailure`. -/
def recordSyncFailure (s : ManagerState) (error : String) : ManagerState :=
  { s with
    syncFailures := s.syncFailures + 1
    events := s.events ++ [.syncFailed error (s.syncFailures + 1)] }

/-- `incrementPendingRequests`: bump the counter and refresh
`lastActivityAt` when the (sanitized) user is loaded. -/
def incrementPendingRequests (now : Int) (s : ManagerState) (userId : String) :
    ManagerState :=
  match sanitizeUserId userId with
  | .error _ => s
  | .ok safeUserId =>
    match mapGet s.userInstances safeUserId with
    | none => s
    | some inst =>
      { s with
        userInstances := mapSet s.userInstances safeUserId
          { inst with
            pendingRequests := inst.pendingRequests + 1
            lastActivityAt := now } }

/-- `decrementPendingRequests`: guarded by `pendingRequests > 0`; a no-op
(no counter change, no activity refresh) when the counter is already
zero. -/
def decrementPendingRequests (now : Int) (s : ManagerState) (userId : String) :
    ManagerState :=
  match sanitizeUserId userId with
  | .error _ => s
  | .ok safeUserId =>
    match mapGet s.userInstances safeUserId with
    | none => s
    | some inst =>
      if inst.pendingRequests > 0 then
        { s with
          userInstances := mapSet s.userInstances safeUserId
            { inst with
              pendingRequests := inst.pendingRequests - 1
              lastActivityAt := now } }
      else s

/-- `evictUser`: drop the instance, its cached config and its workspace
resolver, and emit `user-evicted`. The token index is untouched. -/
def evictUser (s : ManagerState) (userId : String) (reason : EvictReason) :
    ManagerState :=
  { s with
    userInstances := mapDelete s.userInstances userId
    configCache := mapDelete s.configCache userId
    workspaceResolvers := s.workspaceResolvers.filter (fun k => k ≠ userId)
    events := s.events ++ [.userEvicted userId reason] }

/-- The LRU selection loop body of `cleanupInactiveUsers`: scan the
instances in iteration order, skip users with pending requests, and keep
the entry with the strictly smallest `lastActivityAt` seen so far
(`oldestActivity` starts at `Infinity`, modelled by the `none`
accumulator), so the first entry of a tie is retained. -/
def findOldestCandidate (l : List (String × UserInstance)) : Option String :=
  (l.foldl
    (fun acc e =>
      if e.2.pendingRequests > 0 then acc
      else
        match acc with
        | none => some (e.1, e.2.lastActivityAt)
        | some best =>
          if e.2.lastActivityAt < best.2 then some (e.1, e.2.lastActivityAt) else acc)
    none).map Prod.fst

/-- The idle pass of `cleanupInactiveUsers`: iterate over the instances
(in insertion order; only the entry under scrutiny is ever deleted, so
iterating the entry snapshot matches iterating the live map), skipping
users with pending requests and evicting those idle for longer than the
timeout with reason `idle`. -/
def cleanupIdlePass (now idleTimeout : Int) (s : ManagerState) : ManagerState :=
  s.userInstances.foldl
    (fun st e =>
      if e.2.pendingRequests > 0 then st
      else if now - e.2.lastActivityAt > idleTimeout then evictUser st e.1 .idle
      else st)
    s

/-- The LRU `while` loop of `cleanupInactiveUsers`, with explicit fuel
(each iteration that evicts shrinks the cache, so
`s.userInstances.length` fuel is enough; `cleanupLruPass` below supplies
it). While the cache exceeds `maxCachedUsers`, evict the oldest candidate
with reason `lru`, stopping when every remaining user has pending work. -/
def cleanupLruPassFuel (maxCachedUsers : Nat) : Nat → ManagerState → ManagerState
  | 0, s => s
  | fuel + 1, s =>
    if s.userInstances.length > maxCachedUsers then
      match findOldestCandidate s.userInstances with
      | some oldestUserId =>
        cleanupLruPassFuel maxCachedUsers fuel (evictUser s oldestUserId .lru)
      | none => s
    else s

/-- The LRU pass with its fuel instantiated. -/
def cleanupLruPass (maxCachedUsers : Nat) (s : ManagerState) : ManagerState :=
  cleanupLruPassFuel maxCachedUsers s.userInstances.length s

/-- `cleanupInactiveUsers`: the idle pass followed by the LRU pass. -/
def cleanupInactiveUsers (opts : ManagerOptions) (now : Int) (s : ManagerState) :
    ManagerState :=
  cleanupLruPass opts.maxCachedUsers (cleanupIdlePass now opts.userIdleTimeoutMs s)

/-- `forceEvictUser`: unconditional manual eviction. A sanitization
failure throws without mutating state (modelled as `false` with the state
unchanged). -/
def forceEvictUser (s : ManagerState) (userId : String) : Bool × ManagerState :=
  match sanitizeUserId userId with
  | .error _ => (false, s)
  | .ok safeUserId =>
    if mapHas s.userInstances safeUserId then (true, evictUser s safeUserId .manual)
    else (false, s)

/-- `MultiTenantManagerStats` as returned by `getStats` (the
floating-point `cacheHitRate = cacheHits / (cacheHits + cacheMisses)` is
left out of the stats record; its inputs are in `ManagerState`). -/
structure ManagerStats where
  totalUsers : Nat
  activeInstances : Nat
  totalConnections : Int
  usersWithPendingRequests : Nat
  lastSyncAt : Option String
  syncFailures : Nat
deriving DecidableEq, Repr

/-- `getStats`. -/
def getStats (s : ManagerState) : ManagerStats :=
  let agg := s.userInstances.foldl
    (fun (acc : Nat × Int) e =>
      if e.2.pendingRequests > 0 then (acc.1 + 1, acc.2 + e.2.pendingRequests) else acc)
    (0, 0)
  { totalUsers := s.tokenToUserId.length
    activeInstances := s.userInstances.length
    totalConnections := agg.2
    usersWithPendingRequests := agg.1
    lastSyncAt := s.lastSyncAt
    syncFailures := s.syncFailures }

/-- `hasToken`. -/
def hasToken (s : ManagerState) (token : String) : Bool :=
  mapHas s.tokenToUserId token

/-- One public mutating manager operation, used to state whole-manager
invariants. -/
inductive ManagerOp
  | authToken (token : String) (verify : VerifyOutcome)
  | getUser (userId : String) (diskConfig : Option String)
  | updateConfigs (nowIso : String) (configs : List CloudUserConfig)
  | syncFailure (error : String)
  | incPending (userId : String)
  | decPending (userId : String)
  | cleanup
  | forceEvict (userId : String)

/-- Apply one manager operation to the state. -/
def applyOp (opts : ManagerOptions) (now : Int) (op : ManagerOp) (s : ManagerState) :
    ManagerState :=
  match op with
  | .authToken token verify => (authenticateToken opts now verify s token).2
  | .getUser userId diskConfig => (getUserInstance opts now diskConfig s userId).2
  | .updateConfigs nowIso configs => updateUserConfigs nowIso s configs
  | .syncFailure error => recordSyncFailure s error
  | .incPending userId => incrementPendingRequests now s userId
  | .decPending userId => decrementPendingRequests now s userId
  | .cleanup => cleanupInactiveUsers opts now s
  | .forceEvict userId => (forceEvictUser s userId).2

/-- All cached instances have a non-negative pending-request counter. -/
def pendingNonneg (l : List (String × UserInstance)) : Prop :=
  ∀ e ∈ l, 0 ≤ e.2.pendingRequests

/-! ## Pending-request interleavings (`multi-tenant-context.ts`
`wrapWithPendingRequests` brackets each request with one increment and one
decrement) -/

/-- One pending-counter operation for a fixed user. -/
inductive PendOp
  | inc
  | dec
deriving DecidableEq, Repr

/-- Apply a sequence of increment/decrement operations for user `u`. -/
def applyPendOps (now : Int) (u : String) : List PendOp → ManagerState → ManagerState
  | [], s => s
  | .inc :: rest, s => applyPendOps now u rest (incrementPendingRequests now s u)
  | .dec :: rest, s => applyPendOps now u rest (decrementPendingRequests now s u)

/-- Number of increments in a sequence. -/
def countInc (ops : List PendOp) : Nat :=
  (ops.filter (fun o => o = PendOp.inc)).length

/-- Number of decrements in a sequence. -/
def countDec (ops : List PendOp) : Nat :=
  (ops.filter (fun o => o = PendOp.dec)).length

/-- An interleaving of increments with matching decrements: no decrement
overtakes its increment, i.e. every front segment has at least as many
increments as decrements. -/
def MatchedInterleaving (ops : List PendOp) : Prop :=
  ∀ p t : List PendOp, p ++ t = ops → countDec p ≤ countInc p

/-! ## Config sync service (`src/gateway/multi-tenant/config-sync.ts`,
quoted in `src/src/gateway/multi-tenant/auth.ts` part 4) -/

/-- `ConfigSyncServiceOptions` with defaults resolved. -/
structure SyncOptions where
  syncIntervalMs : Nat
  initialRetryDelayMs : Nat
  maxRetryDelayMs : Nat
  alertThreshold : Nat
deriving DecidableEq, Repr

/-- The mutable sync-service fields relevant to retry scheduling. -/
structure SyncState where
  lastSyncTimestamp : Option String
  consecutiveFailures : Nat
  currentRetryDelay : Nat
deriving DecidableEq, Repr

/-- Constructor state: `currentRetryDelay = initialRetryDelayMs`. -/
def initialSyncState (o : SyncOptions) : SyncState :=
  { lastSyncTimestamp := none
    consecutiveFailures := 0
    currentRetryDelay := o.initialRetryDelayMs }

/-- Outcome of one `doSync` attempt: a parsed 2xx response, or any
failure (transport, non-2xx, or parse error — all are thrown and caught
by the same `catch`). -/
inductive SyncOutcome
  | success (syncTimestamp : String) (hasMore : Bool)
  | failure (error : String)
deriving DecidableEq, Repr

/-- `doSync` state transition. On success: record the timestamp, reset
`consecutiveFailures` and the retry delay. On failure: increment
`consecutiveFailures`, double `currentRetryDelay` bounded by
`maxRetryDelayMs`, and invoke the alert callback when the threshold is
reached (the returned flag). -/
def doSyncStep (o : SyncOptions) (st : SyncState) (out : SyncOutcome) :
    SyncState × Bool :=
  match out with
  | .success ts _ =>
    ({ lastSyncTimestamp := some ts
       consecutiveFailures := 0
       currentRetryDelay := o.initialRetryDelayMs }, false)
  | .failure _ =>
    ({ st with
       consecutiveFailures := st.consecutiveFailures + 1
       currentRetryDelay := min (st.currentRetryDelay * 2) o.maxRetryDelayMs },
     decide (o.alertThreshold ≤ st.consecutiveFailures + 1))

/-- `scheduleNextSync`: after a failure the next attempt is scheduled at
`currentRetryDelay`, otherwise at the normal interval. -/
def scheduleNextSyncDelay (o : SyncOptions) (st : SyncState) : Nat :=
  if st.consecutiveFailures > 0 then st.currentRetryDelay else o.syncIntervalMs

/-- State after `k` consecutive failed sync attempts. -/
def afterFailures (o : SyncOptions) : Nat → SyncState → SyncState
  | 0, st => st
  | k + 1, st => afterFailures o k (doSyncStep o st (.failure "sync failed")).1

/-- The idle-pass eviction decision for one entry, read off the claim: an
entry is evicted exactly when it has no pending requests and has been
idle longer than the timeout. -/
def idleEvictB (now idleTimeout : Int) (e : String × UserInstance) : Bool :=
  !decide (e.2.pendingRequests > 0) && decide (now - e.2.lastActivityAt > idleTimeout)

/-- The claim's description of the LRU pick, written as a direct
recursion: among the entries with `pendingRequests == 0`, the one with
the oldest (smallest) `lastActivityAt`, taking the first encountered in
iteration order when several share it (the strict comparison prefers the
earlier entry on ties). Returns the key together with its activity
timestamp. -/
def specFirstOldest : List (String × UserInstance) → Option (String × Int)
  | [] => none
  | e :: rest =>
    if e.2.pendingRequests > 0 then specFirstOldest rest
    else
      match specFirstOldest rest with
      | none => some (e.1, e.2.lastActivityAt)
      | some best =>
        if best.2 < e.2.lastActivityAt then some best
        else some (e.1, e.2.lastActivityAt)

/-! ## Concrete sample states used by witnesses and counterexamples -/

/-- Sample options: the defaults of `DEFAULT_MULTI_TENANT_CONFIG` shape. -/
def sampleOpts : ManagerOptions :=
  { maxCachedUsers := 2
    userIdleTimeoutMs := 1000
    cloudBackendUrl := "https://cloud.example"
    workspaceRoot := "/var/openclaw/workspaces"
    configRoot := "/var/openclaw/configs"
    templatePath := "/var/openclaw/template" }

/-- A loaded instance for user `u-1` with one request in flight. -/
def busyInst : UserInstance :=
  { userId := "u-1"
    config := "cfg-1"
    workspacePath := "/var/openclaw/workspaces/users/u-1"
    configPath := "/var/openclaw/configs/users/u-1/config.json"
    lastActivityAt := 5
    pendingRequests := 1
    status := .active
    llmApiKey := none }

/-- A loaded idle active instance for user `u-2`. -/
def idleInst : UserInstance :=
  { userId := "u-2"
    config := "cfg-2"
    workspacePath := "/var/openclaw/workspaces/users/u-2"
    configPath := "/var/openclaw/configs/users/u-2/config.json"
    lastActivityAt := 5
    pendingRequests := 0
    status := .active
    llmApiKey := none }

/-- The empty manager state. -/
def emptyState : ManagerState :=
  { userInstances := []
    tokenToUserId := []
    configCache := []
    workspaceResolvers := []
    events := []
    cacheHits := 0
    cacheMisses := 0
    lastSyncAt := none
    syncFailures := 0 }

/-- A state holding `busyInst` (pending work) and `idleInst`. -/
def sampleState : ManagerState :=
  { emptyState with
    userInstances := [("u-1", busyInst), ("u-2", idleInst)]
    tokenToUserId := [("tok-1", "u-1"), ("tok-2", "u-2")]
    configCache := [("u-1", "cfg-1"), ("u-2", "cfg-2")]
    workspaceResolvers := ["u-1", "u-2"] }

/-- The sync-service defaults (`syncIntervalMs 300000`,
`initialRetryDelayMs 1000`, `maxRetryDelayMs 300000`,
`alertThreshold 5`). -/
def defaultSyncOptions : SyncOptions :=
  { syncIntervalMs := 300000
    initialRetryDelayMs := 1000
    maxRetryDelayMs := 300000
    alertThreshold := 5 }

/-! ## Helper lemmas about the `Map` model -/

theorem mapGet_cons {α : Type} (e : String × α) (m : List (String × α)) (k : String) :
    mapGet (e :: m) k = if e.1 = k then some e.2 else mapGet m k := by
  by_cases h : e.1 = k <;> simp [mapGet, List.find?_cons, h]

theorem mapDelete_cons {α : Type} (e : String × α) (m : List (String × α)) (k : String) :
    mapDelete (e :: m) k =
      if e.1 = k then mapDelete m k else e :: mapDelete m k := by
  by_cases h : e.1 = k <;> simp [mapDelete, List.filter_cons, h]

theorem mapGet_mem {α : Type} {m : List (String × α)} {k : String} {v : α}
    (h : mapGet m k = some v) : (k, v) ∈ m := by
  induction m with
  | nil => simp [mapGet] at h
  | cons e rest ih =>
    rw [mapGet_cons] at h
    by_cases he : e.1 = k
    · rw [if_pos he] at h
      have : e = (k, v) := by
        obtain ⟨a, b⟩ := e
        simp only at he
        simp only [Option.some.injEq] at h
        simp [he, h]
      rw [this]
      exact List.mem_cons_self _ _
    · rw [if_neg he] at h
      exact List.mem_cons_of_mem _ (ih h)

theorem mapGet_eq_none {α : Type} {m : List (String × α)} {k : String}
    (h : k ∉ m.map Prod.fst) : mapGet m k = none := by
  induction m with
  | nil => rfl
  | cons e rest ih =>
    simp only [List.map_cons, List.mem_cons] at h
    push_neg at h
    rw [mapGet_cons, if_neg (fun he => h.1 he.symm)]
    exact ih h.2

theorem mapGet_isSome_iff {α : Type} (m : List (String × α)) (k : String) :
    (mapGet m k).isSome = (m.find? (fun e => e.1 = k)).isSome := by
  unfold mapGet
  cases m.find? (fun e => e.1 = k) <;> simp

theorem mapGet_append_self {α : Type} {m : List (String × α)} {k : String} (v : α)
    (h : mapGet m k = none) : mapGet (m ++ [(k, v)]) k = some v := by
  induction m with
  | nil => simp [mapGet_cons]
  | cons e rest ih =>
    rw [mapGet_cons] at h
    rw [List.cons_append, mapGet_cons]
    by_cases he : e.1 = k
    · rw [if_pos he] at h
      exact absurd h (by simp)
    · rw [if_neg he] at h ⊢
      exact ih h

theorem mapGet_append_ne {α : Type} (m : List (String × α)) (k k' : String) (v : α)
    (h : k' ≠ k) : mapGet (m ++ [(k, v)]) k' = mapGet m k' := by
  induction m with
  | nil =>
    simp only [List.nil_append, mapGet_cons]
    rw [if_neg (fun hk => h hk.symm)]
  | cons e rest ih =>
    rw [List.cons_append, mapGet_cons, mapGet_cons]
    by_cases he : e.1 = k'
    · simp [he]
    · rw [if_neg he, if_neg he]
      exact ih

theorem mapGet_update_self {α : Type} {m : List (String × α)} {k : String} (v : α)
    (h : (mapGet m k).isSome) :
    mapGet (m.map (fun e => if e.1 = k then (k, v) else e)) k = some v := by
  induction m with
  | nil => simp [mapGet] at h
  | cons e rest ih =>
    rw [List.map_cons]
    by_cases he : e.1 = k
    · rw [if_pos he]
      simp [mapGet_cons]
    · rw [if_neg he, mapGet_cons, if_neg he]
      rw [mapGet_cons, if_neg he] at h
      exact ih h

theorem mapGet_update_ne {α : Type} (m : List (String × α)) (k k' : String) (v : α)
    (h : k' ≠ k) :
    mapGet (m.map (fun e => if e.1 = k then (k, v) else e)) k' = mapGet m k' := by
  induction m with
  | nil => rfl
  | cons e rest ih =>
    rw [List.map_cons, mapGet_cons]
    by_cases he : e.1 = k
    · rw [if_pos he]
      have h1 : ¬ ((k, v) : String × α).1 = k' := fun hk => h hk.symm
      have h2 : ¬ e.1 = k' := fun hek => h (he.symm.trans hek).symm
      rw [if_neg h1, mapGet_cons, if_neg h2]
      exact ih
    · rw [if_neg he, mapGet_cons]
      by_cases he' : e.1 = k'
      · rw [if_pos he', if_pos he']
      · rw [if_neg he', if_neg he']
        exact ih

theorem mapGet_mapSet_self {α : Type} (m : List (String × α)) (k : String) (v : α) :
    mapGet (mapSet m k v) k = some v := by
  unfold mapSet
  by_cases h : (m.find? (fun e => e.1 = k)).isSome
  · rw [if_pos h]
    exact mapGet_update_self v (by rw [mapGet_isSome_iff]; exact h)
  · rw [if_neg h]
    apply mapGet_append_self
    rcases hg : mapGet m k with _ | v'
    · rfl
    · exfalso
      apply h
      rw [← mapGet_isSome_iff, hg]
      rfl

theorem mapGet_mapSet_ne {α : Type} (m : List (String × α)) (k k' : String) (v : α)
    (h : k' ≠ k) : mapGet (mapSet m k v) k' = mapGet m k' := by
  unfold mapSet
  by_cases hs : (m.find? (fun e => e.1 = k)).isSome
  · rw [if_pos hs]
    exact mapGet_update_ne m k k' v h
  · rw [if_neg hs]
    exact mapGet_append_ne m k k' v h

theorem mapGet_mapDelete_self {α : Type} (m : List (String × α)) (k : String) :
    mapGet (mapDelete m k) k = none := by
  apply mapGet_eq_none
  intro hmem
  rcases List.mem_map.mp hmem with ⟨e, he, hfe⟩
  have hne := List.of_mem_filter he
  simp only [ne_eq, decide_not, Bool.not_eq_true', decide_eq_false_iff_not] at hne
  exact hne hfe

theorem mapGet_mapDelete_ne {α : Type} (m : List (String × α)) (k k' : String)
    (h : k' ≠ k) : mapGet (mapDelete m k) k' = mapGet m k' := by
  induction m with
  | nil => rfl
  | cons e rest ih =>
    rw [mapDelete_cons]
    by_cases hk : e.1 = k
    · rw [if_pos hk, mapGet_cons]
      rw [if_neg (by rw [hk]; exact fun hkk => h hkk.symm)]
      exact ih
    · rw [if_neg hk, mapGet_cons, mapGet_cons]
      by_cases he' : e.1 = k'
      · rw [if_pos he', if_pos he']
      · rw [if_neg he', if_neg he']
        exact ih

theorem mapDelete_of_not_mem {α : Type} {m : List (String × α)} {k : String}
    (h : k ∉ m.map Prod.fst) : mapDelete m k = m := by
  induction m with
  | nil => rfl
  | cons e rest ih =>
    simp only [List.map_cons, List.mem_cons] at h
    push_neg at h
    rw [mapDelete_cons, if_neg (fun he => h.1 he.symm), ih h.2]

theorem mapDelete_length_le {α : Type} (m : List (String × α)) (k : String) :
    (mapDelete m k).length ≤ m.length :=
  List.length_filter_le _ m

theorem mapDelete_length_lt {α : Type} {m : List (String × α)} {k : String}
    (h : k ∈ m.map Prod.fst) : (mapDelete m k).length < m.length := by
  induction m with
  | nil => simp at h
  | cons e rest ih =>
    simp only [List.map_cons, List.mem_cons] at h
    rw [mapDelete_cons]
    by_cases hk : e.1 = k
    · rw [if_pos hk]
      exact Nat.lt_succ_of_le (mapDelete_length_le rest k)
    · rw [if_neg hk]
      simp only [List.length_cons]
      have hmem : k ∈ rest.map Prod.fst := by
        rcases h with h | h
        · exact absurd h.symm hk
        · exact h
      exact Nat.succ_lt_succ (ih hmem)

theorem mapGet_of_mem_nodup {α : Type} {m : List (String × α)} {k : String} {v : α}
    (hnd : (m.map Prod.fst).Nodup) (hmem : (k, v) ∈ m) : mapGet m k = some v := by
  induction m with
  | nil => simp at hmem
  | cons e rest ih =>
    simp only [List.map_cons, List.nodup_cons] at hnd
    rcases List.mem_cons.mp hmem with h | h
    · rw [← h, mapGet_cons, if_pos rfl]
    · rw [mapGet_cons]
      have hk : e.1 ≠ k := by
        intro he
        exact hnd.1 (he ▸ (List.mem_map.mpr ⟨(k, v), h, rfl⟩))
      rw [if_neg hk]
      exact ih hnd.2 h

theorem mapDelete_map_fst_sublist {α : Type} (m : List (String × α)) (k : String) :
    ((mapDelete m k).map Prod.fst).Sublist (m.map Prod.fst) :=
  List.Sublist.map Prod.fst (List.filter_sublist m)

theorem mapDelete_nodup {α : Type} {m : List (String × α)} (k : String)
    (hnd : (m.map Prod.fst).Nodup) : ((mapDelete m k).map Prod.fst).Nodup :=
  (mapDelete_map_fst_sublist m k).nodup hnd

/-! ## Helper lemmas about sanitization -/

theorem sanitizeChars_all_safe (cs : List Char) :
    ∀ c ∈ sanitizeChars cs, isSafeChar c = true := by
  intro c hc
  rcases List.mem_map.mp hc with ⟨b, _, rfl⟩
  by_cases hs : isSafeChar b = true
  · simp [hs]
  · simp only [Bool.not_eq_true] at hs
    simp [hs]
    decide

theorem isSafeChar_excludes {c : Char} (h : isSafeChar c = true) :
    c ≠ '/' ∧ c ≠ '\\' ∧ c ≠ '.' := by
  refine ⟨?_, ?_, ?_⟩ <;> rintro rfl <;> simp [isSafeChar] at h

theorem stripDotDot_no_dot : ∀ cs : List Char, (∀ c ∈ cs, c ≠ '.') → stripDotDot cs = cs
  | [], _ => rfl
  | [c], _ => rfl
  | c1 :: c2 :: rest, h => by
    simp only [stripDotDot]
    rw [if_neg (fun hc => (h c1 (by simp)) hc.1)]
    rw [stripDotDot_no_dot (c2 :: rest) (fun c hc => h c (List.mem_cons_of_mem _ hc))]

theorem sanitizeChars_of_safe {cs : List Char} (h : ∀ c ∈ cs, isSafeChar c = true) :
    sanitizeChars cs = cs := by
  unfold sanitizeChars
  rw [stripDotDot_no_dot cs (fun c hc => (isSafeChar_excludes (h c hc)).2.2)]
  rw [List.filter_eq_self.mpr (fun c hc => by
    rcases isSafeChar_excludes (h c hc) with ⟨h1, h2, _⟩
    simp [isSep, h1, h2])]
  rw [List.map_congr_left (fun c hc => if_pos (h c hc))]
  exact List.map_id' cs

theorem sanitizeUserId_ok_iff (s : String) (r : String) :
    sanitizeUserId s = .ok r ↔
      sanitizeChars s.data ≠ [] ∧ (sanitizeChars s.data).length ≤ 128 ∧
        r = String.mk (sanitizeChars s.data) := by
  unfold sanitizeUserId
  by_cases h1 : (sanitizeChars s.data).isEmpty = true
  · rw [List.isEmpty_iff] at h1
    simp [h1]
  · rw [if_neg h1]
    rw [List.isEmpty_iff] at h1
    by_cases h2 : (sanitizeChars s.data).length > 128
    · simp [h2, Nat.not_le.mpr h2]
    · simp only [if_neg h2]
      push_neg at h2
      constructor
      · intro h
        exact ⟨h1, h2, (Except.ok.injEq _ _ ▸ h).symm ▸ rfl⟩
      · rintro ⟨_, _, rfl⟩
        rfl

theorem sanitizeUserId_error_iff (s : String) :
    (∃ msg, sanitizeUserId s = .error msg) ↔
      sanitizeChars s.data = [] ∨ 128 < (sanitizeChars s.data).length := by
  unfold sanitizeUserId
  by_cases h1 : (sanitizeChars s.data).isEmpty = true
  · rw [List.isEmpty_iff] at h1
    simp [h1]
  · rw [if_neg h1]
    rw [List.isEmpty_iff] at h1
    by_cases h2 : (sanitizeChars s.data).length > 128
    · simp [h2, h1]
    · simp [h2, h1]

theorem sanitizeUserId_of_safe (s : String) (h : ∀ c ∈ s.data, isSafeChar c = true)
    (hne : s.data ≠ []) (hlen : s.data.length ≤ 128) : sanitizeUserId s = .ok s := by
  rw [sanitizeUserId_ok_iff]
  rw [sanitizeChars_of_safe h]
  exact ⟨hne, hlen, by cases s; rfl⟩

/-! ## Claim C6 — `sanitizeUserId` -/

/-- C6 (amended): `sanitizeUserId` fails exactly when the sanitized result
is empty or exceeds 128 characters; otherwise it returns the sanitized
result, which is obtained by removing path separators and `..`
occurrences (not by mapping them to `_`), replacing every other character
outside `[A-Za-z0-9_-]` with `_`, and therefore contains only characters
in `[A-Za-z0-9_-]`. -/
theorem sanitizeUserId_spec (s : String) :
    ((∃ msg, sanitizeUserId s = .error msg) ↔
      sanitizeChars s.data = [] ∨ 128 < (sanitizeChars s.data).length) ∧
    (∀ r, sanitizeUserId s = .ok r →
      r.data = sanitizeChars s.data ∧ r.data ≠ [] ∧ r.data.length ≤ 128 ∧
        ∀ c ∈ r.data, isSafeChar c = true) := by
  refine ⟨sanitizeUserId_error_iff s, fun r h => ?_⟩
  rcases (sanitizeUserId_ok_iff s r).mp h with ⟨hne, hlen, rfl⟩
  exact ⟨rfl, hne, hlen, sanitizeChars_all_safe s.data⟩

/-- C6 witness: `"a b"` sanitizes to `"a_b"` (the space maps to `_`), and
the returned id satisfies the amended specification. -/
theorem sanitizeUserId_spec_witness :
    ("a_b" : String).data = sanitizeChars ("a b" : String).data ∧
      ("a_b" : String).data ≠ [] ∧ ("a_b" : String).data.length ≤ 128 ∧
      ∀ c ∈ ("a_b" : String).data, isSafeChar c = true :=
  (sanitizeUserId_spec "a b").2 "a_b" rfl

/-- C6 counterexample: the claim says path separators are mapped to `_`,
but `sanitizeUserId "a/b"` returns `"ab"` — the separator is removed, not
replaced — so the result differs from the claimed `"a_b"`. -/
theorem sanitizeUserId_removes_separators :
    sanitizeUserId "a/b" = .ok "ab" ∧ ("ab" : String) ≠ "a_b" :=
  ⟨rfl, by decide⟩

/-! ## Claim C7 — workspace paths never escape `workspaceRoot/users` -/

/-- C7: whenever sanitization succeeds, `getUserWorkspacePath` returns
`workspaceRoot ++ "/users/" ++ c` for a non-empty final segment `c`
containing only `[A-Za-z0-9_-]` characters — in particular no `/`, `\`
or `.` — so the path cannot name anything outside
`{workspaceRoot}/users`; when sanitization fails, no path is produced. -/
theorem getUserWorkspacePath_no_escape (workspaceRoot s r : String)
    (h : getUserWorkspacePath workspaceRoot s = .ok r) :
    ∃ c : String, r = workspaceRoot ++ "/users/" ++ c ∧ c.data ≠ [] ∧
      (∀ ch ∈ c.data, isSafeChar ch = true) ∧
      ∀ ch ∈ c.data, ch ≠ '/' ∧ ch ≠ '\\' ∧ ch ≠ '.' := by
  unfold getUserWorkspacePath at h
  rcases hs : sanitizeUserId s with msg | safe
  · rw [hs] at h
    exact absurd h (by simp [Except.map])
  · rw [hs] at h
    simp only [Except.map, Except.ok.injEq] at h
    rcases (sanitizeUserId_ok_iff s safe).mp hs with ⟨hne, _, rfl⟩
    refine ⟨String.mk (sanitizeChars s.data), h.symm, hne, ?_, ?_⟩
    · exact sanitizeChars_all_safe s.data
    · exact fun ch hch => isSafeChar_excludes (sanitizeChars_all_safe s.data ch hch)

/-- C7 witness: the traversal attempt `"../../etc"` still lands inside
`/w/users`. -/
theorem getUserWorkspacePath_no_escape_witness :
    ∃ c : String, ("/w/users/etc" : String) = "/w" ++ "/users/" ++ c ∧ c.data ≠ [] ∧
      (∀ ch ∈ c.data, isSafeChar ch = true) ∧
      ∀ ch ∈ c.data, ch ≠ '/' ∧ ch ≠ '\\' ∧ ch ≠ '.' :=
  getUserWorkspacePath_no_escape "/w" "../../etc" "/w/users/etc" rfl

/-! ## Claim C8 — resolver layer priority -/

theorem DEFAULT_FILE_CONTENT_nonempty : ∀ e ∈ DEFAULT_FILE_CONTENT, e.2 ≠ "" := by
  decide

/-- C8: `readWorkspaceFile` reduces the filename to its basename and then
serves the custom layer if it has the file, else the template layer, else
the built-in default (every built-in default is a non-empty string, so
the JS truthiness test never drops one), and returns `none` exactly when
all three layers miss. -/
theorem readWorkspaceFile_layer_priority
    (customLayer templateLayer : String → Option String) (f : String) :
    (∀ c, customLayer (basename f) = some c →
      readWorkspaceFile customLayer templateLayer f = some c) ∧
    (customLayer (basename f) = none → ∀ t, templateLayer (basename f) = some t →
      readWorkspaceFile customLayer templateLayer f = some t) ∧
    (customLayer (basename f) = none → templateLayer (basename f) = none →
      readWorkspaceFile customLayer templateLayer f =
        mapGet DEFAULT_FILE_CONTENT (basename f)) ∧
    (readWorkspaceFile customLayer templateLayer f = none ↔
      customLayer (basename f) = none ∧ templateLayer (basename f) = none ∧
        mapGet DEFAULT_FILE_CONTENT (basename f) = none) := by
  refine ⟨?_, ?_, ?_, ?_⟩
  · intro c hc
    simp [readWorkspaceFile, hc]
  · intro hc t ht
    simp [readWorkspaceFile, hc, ht]
  · intro hc ht
    simp only [readWorkspaceFile, hc, ht]
    rcases hd : mapGet DEFAULT_FILE_CONTENT (basename f) with _ | d
    · rfl
    · have hne := DEFAULT_FILE_CONTENT_nonempty _ (mapGet_mem hd)
      simp [hne]
  · constructor
    · intro h
      rcases hc : customLayer (basename f) with _ | c
      · rcases ht : templateLayer (basename f) with _ | t
        · rcases hd : mapGet DEFAULT_FILE_CONTENT (basename f) with _ | d
          · exact ⟨rfl, rfl, rfl⟩
          · have hne := DEFAULT_FILE_CONTENT_nonempty _ (mapGet_mem hd)
            simp [readWorkspaceFile, hc, ht, hd, hne] at h
        · simp [readWorkspaceFile, hc, ht] at h
      · simp [readWorkspaceFile, hc] at h
    · rintro ⟨hc, ht, hd⟩
      simp [readWorkspaceFile, hc, ht, hd]

/-- C8 witness: with a custom file present for `AGENTS.md` the read (here
through the path `"sub/AGENTS.md"`, reduced to its basename) returns the
custom content. -/
theorem readWorkspaceFile_layer_priority_witness :
    readWorkspaceFile (fun x => if x = "AGENTS.md" then some "custom agents" else none)
      (fun x => if x = "AGENTS.md" then some "template agents" else none)
      "sub/AGENTS.md" = some "custom agents" :=
  (readWorkspaceFile_layer_priority
    (fun x => if x = "AGENTS.md" then some "custom agents" else none)
    (fun x => if x = "AGENTS.md" then some "template agents" else none)
    "sub/AGENTS.md").1 "custom agents" rfl

/-! ## Claim C5 — sync retry backoff -/

theorem min_mul_min (a m c : Nat) (hc : 1 ≤ c) : min (min a m * c) m = min (a * c) m := by
  rcases Nat.le_total a m with h | h
  · rw [Nat.min_eq_left h]
  · have hm : m ≤ m * c := by
      calc m = m * 1 := (Nat.mul_one m).symm
        _ ≤ m * c := Nat.mul_le_mul_left m hc
    have ha : a ≤ a * c := by
      calc a = a * 1 := (Nat.mul_one a).symm
        _ ≤ a * c := Nat.mul_le_mul_left a hc
    rw [Nat.min_eq_right h, Nat.min_eq_right hm, Nat.min_eq_right (h.trans ha)]

theorem afterFailures_consecutiveFailures (o : SyncOptions) :
    ∀ (k : Nat) (st : SyncState),
      (afterFailures o k st).consecutiveFailures = st.consecutiveFailures + k
  | 0, st => rfl
  | k + 1, st => by
    rw [afterFailures, afterFailures_consecutiveFailures o k]
    simp [doSyncStep]
    omega

theorem afterFailures_delay (o : SyncOptions) :
    ∀ (k : Nat) (st : SyncState), 1 ≤ k →
      (afterFailures o k st).currentRetryDelay =
        min (st.currentRetryDelay * 2 ^ k) o.maxRetryDelayMs
  | 0, _, hk => absurd hk (by omega)
  | 1, st, _ => by
    rw [afterFailures, afterFailures, doSyncStep, pow_one]
  | k + 2, st, _ => by
    rw [afterFailures, afterFailures_delay o (k + 1) _ (by omega)]
    show min (min (st.currentRetryDelay * 2) o.maxRetryDelayMs * 2 ^ (k + 1))
        o.maxRetryDelayMs = _
    rw [min_mul_min _ _ _ Nat.one_le_two_pow, Nat.mul_assoc]
    congr 2
    ring

/-- C5 (amended): starting from a fresh retry delay, after `k ≥ 1`
consecutive sync failures the next attempt is scheduled at
`min(initialRetryDelayMs · 2^k, maxRetryDelayMs)` — the delay is doubled
before the first retry is scheduled, so the exponent is `k`, not `k-1` —
and a successful sync resets `currentRetryDelay` to `initialRetryDelayMs`
and `consecutiveFailures` to `0`. -/
theorem sync_backoff_delay_spec (o : SyncOptions) (st : SyncState) (k : Nat)
    (hfresh : st.currentRetryDelay = o.initialRetryDelayMs) (hk : 1 ≤ k) :
    scheduleNextSyncDelay o (afterFailures o k st) =
      min (o.initialRetryDelayMs * 2 ^ k) o.maxRetryDelayMs ∧
    ∀ (st' : SyncState) (ts : String) (hasMore : Bool),
      (doSyncStep o st' (.success ts hasMore)).1.currentRetryDelay =
        o.initialRetryDelayMs ∧
      (doSyncStep o st' (.success ts hasMore)).1.consecutiveFailures = 0 := by
  constructor
  · rw [scheduleNextSyncDelay,
      if_pos (by rw [afterFailures_consecutiveFailures]; omega)]
    rw [afterFailures_delay o k st hk, hfresh]
  · intro st' ts hasMore
    exact ⟨rfl, rfl⟩

/-- C5 witness: with the default options (`initial 1000`, `max 300000`),
four consecutive failures schedule the next retry at
`min(1000 · 2⁴, 300000) = 16000`. -/
theorem sync_backoff_delay_spec_witness :
    scheduleNextSyncDelay defaultSyncOptions
        (afterFailures defaultSyncOptions 4 (initialSyncState defaultSyncOptions)) =
      min (defaultSyncOptions.initialRetryDelayMs * 2 ^ 4)
        defaultSyncOptions.maxRetryDelayMs ∧
    ∀ (st' : SyncState) (ts : String) (hasMore : Bool),
      (doSyncStep defaultSyncOptions st' (.success ts hasMore)).1.currentRetryDelay =
        defaultSyncOptions.initialRetryDelayMs ∧
      (doSyncStep defaultSyncOptions st' (.success ts hasMore)).1.consecutiveFailures = 0 :=
  sync_backoff_delay_spec defaultSyncOptions (initialSyncState defaultSyncOptions) 4
    rfl (by omega)

/-- C5 counterexample: the claim predicts a first retry delay of
`min(initial · 2⁰, max) = 1000` ms, but with the default options the
first scheduled retry delay is 2000 ms (the delay is doubled before
scheduling). -/
theorem sync_first_retry_delay_is_doubled :
    scheduleNextSyncDelay defaultSyncOptions
        (afterFailures defaultSyncOptions 1 (initialSyncState defaultSyncOptions)) = 2000 ∧
    (2000 : Nat) ≠ min (defaultSyncOptions.initialRetryDelayMs * 2 ^ (1 - 1))
        defaultSyncOptions.maxRetryDelayMs := by
  exact ⟨rfl, by decide⟩

/-! ## Claim C2 — token authentication on a cache hit -/

/-- C2 (amended): on a cache hit with an `active` instance both
`authenticateToken` variants return the user id and leave the state —
including `lastActivityAt` — completely unchanged (no activity refresh
happens on this path); on a `suspended` or `expired` cached instance both
variants return `none` and append exactly one corresponding
`user-suspended` / `user-expired` event, touching nothing else. -/
theorem authenticateToken_cache_hit_spec (opts : ManagerOptions) (now : Int)
    (verify : VerifyOutcome) (s : ManagerState) (token userId : String)
    (inst : UserInstance)
    (htok : mapGet s.tokenToUserId token = some userId)
    (hinst : mapGet s.userInstances userId = some inst) :
    (inst.status = .active →
      authenticateToken opts now verify s token = (some userId, s) ∧
      authenticateTokenSync s token = (some userId, s)) ∧
    (inst.status = .suspended →
      authenticateToken opts now verify s token =
        (none, { s with events := s.events ++ [.userSuspended userId] }) ∧
      authenticateTokenSync s token =
        (none, { s with events := s.events ++ [.userSuspended userId] })) ∧
    (inst.status = .expired →
      authenticateToken opts now verify s token =
        (none, { s with events := s.events ++ [.userExpired userId] }) ∧
      authenticateTokenSync s token =
        (none, { s with events := s.events ++ [.userExpired userId] })) := by
  refine ⟨fun hst => ?_, fun hst => ?_, fun hst => ?_⟩ <;>
    exact ⟨by simp only [authenticateToken, htok, hinst, hst],
      by simp only [authenticateTokenSync, htok, hinst, hst]⟩

/-- C2 witness: authenticating the cached active user `u-1` in
`sampleState` returns `u-1` and leaves the state untouched. -/
theorem authenticateToken_cache_hit_spec_witness :
    authenticateToken sampleOpts 100 .transportFailure sampleState "tok-1" =
      (some "u-1", sampleState) ∧
    authenticateTokenSync sampleState "tok-1" = (some "u-1", sampleState) :=
  (authenticateToken_cache_hit_spec sampleOpts 100 .transportFailure sampleState
    "tok-1" "u-1" busyInst rfl rfl).1 rfl

/-- C2 counterexample: the claim says a cache hit on an active instance
refreshes `lastActivityAt`, but authenticating `u-1` (cached with
`lastActivityAt = 5`) at time 100 returns the user id while
`lastActivityAt` stays 5. -/
theorem authenticateToken_does_not_refresh_lastActivityAt :
    (authenticateToken sampleOpts 100 .transportFailure sampleState "tok-1").1 =
      some "u-1" ∧
    (mapGet (authenticateToken sampleOpts 100 .transportFailure sampleState
        "tok-1").2.userInstances "u-1").map UserInstance.lastActivityAt = some 5 ∧
    (5 : Int) ≠ 100 :=
  ⟨rfl, rfl, by decide⟩

/-! ## Claim C4 — token authentication on a cache miss -/

/-- C4 (amended): on a token-index miss with a backend configured, the
remote verify outcome decides the result. A 2xx response carrying a
record whose `user_id` sanitizes successfully inserts the token into the
index, leaves the tenant provisioned and cached, and returns the user id;
a 401 returns `none` with the state unchanged; any other HTTP status or a
transport failure returns `none` with the state unchanged; a 2xx record
whose `user_id` fails sanitization is caught by the surrounding
`try`/`catch` and also returns `none` with the state unchanged (this case
falsifies the unamended claim); a 2xx body without a usable record
returns `none`. The embedding is a total function, so no case throws to
the caller. -/
theorem authenticateToken_cache_miss_spec (opts : ManagerOptions) (now : Int)
    (s : ManagerState) (token : String)
    (hurl : opts.cloudBackendUrl ≠ "")
    (hmiss : mapGet s.tokenToUserId token = none) :
    (∀ r : VerifyRecord, r.user_id ≠ "" →
      ∀ userId, sanitizeUserId r.user_id = .ok userId →
        (authenticateToken opts now (.httpOk (some r)) s token).1 = some userId ∧
        mapGet (authenticateToken opts now
          (.httpOk (some r)) s token).2.tokenToUserId token = some userId ∧
        mapHas (authenticateToken opts now
          (.httpOk (some r)) s token).2.userInstances userId = true) ∧
    authenticateToken opts now .unauthorized s token = (none, s) ∧
    (∀ status, authenticateToken opts now (.httpError status) s token = (none, s)) ∧
    authenticateToken opts now .transportFailure s token = (none, s) ∧
    (∀ r : VerifyRecord, (∃ msg, sanitizeUserId r.user_id = .error msg) →
      authenticateToken opts now (.httpOk (some r)) s token = (none, s)) ∧
    authenticateToken opts now (.httpOk none) s token = (none, s) := by
  refine ⟨?_, ?_, ?_, ?_, ?_, ?_⟩
  · intro r hne userId hsan
    simp only [authenticateToken, hmiss, if_neg hurl, if_neg hne, hsan]
    by_cases hhas : (mapGet s.userInstances userId).isSome = true
    · simp [mapHas, hhas, mapGet_mapSet_self]
    · simp [mapHas, hhas, initializeUserInstance, mapGet_mapSet_self]
  · simp only [authenticateToken, hmiss, if_neg hurl]
  · intro status
    simp only [authenticateToken, hmiss, if_neg hurl]
  · simp only [authenticateToken, hmiss, if_neg hurl]
  · rintro r ⟨msg, hsan⟩
    by_cases hne : r.user_id = ""
    · simp only [authenticateToken, hmiss, if_neg hurl, if_pos hne]
    · simp only [authenticateToken, hmiss, if_neg hurl, if_neg hne, hsan]
  · simp only [authenticateToken, hmiss, if_neg hurl]

/-- C4 witness: a cold cache plus a 2xx verify record for `u-9` yields
`some "u-9"`, the token bound in the index, and the instance cached. -/
theorem authenticateToken_cache_miss_spec_witness :
    (authenticateToken sampleOpts 0
      (.httpOk (some { user_id := "u-9", status := .active, openclaw_config := "cfg" }))
      emptyState "tok-x").1 = some "u-9" ∧
    mapGet (authenticateToken sampleOpts 0
      (.httpOk (some { user_id := "u-9", status := .active, openclaw_config := "cfg" }))
      emptyState "tok-x").2.tokenToUserId "tok-x" = some "u-9" ∧
    mapHas (authenticateToken sampleOpts 0
      (.httpOk (some { user_id := "u-9", status := .active, openclaw_config := "cfg" }))
      emptyState "tok-x").2.userInstances "u-9" = true :=
  (authenticateToken_cache_miss_spec sampleOpts 0 emptyState "tok-x"
      (by decide) rfl).1
    { user_id := "u-9", status := .active, openclaw_config := "cfg" }
    (by decide) "u-9" rfl

/-- C4 counterexample: a 2xx response carrying a record (non-empty
`user_id = "/"`) whose id fails sanitization returns `none` and inserts
nothing, although the claim promises the token is inserted and the user
id returned for every 2xx response carrying a record. -/
theorem authenticateToken_miss_unsanitizable_record :
    authenticateToken sampleOpts 0
        (.httpOk (some { user_id := "/", status := .active, openclaw_config := "cfg" }))
        emptyState "tok-x" = (none, emptyState) ∧
    ("/" : String) ≠ "" :=
  ⟨rfl, by decide⟩

/-! ## Helper lemmas about the cleanup passes -/

theorem idleStep_userInstances (now t : Int) (st : ManagerState)
    (e : String × UserInstance) :
    (if e.2.pendingRequests > 0 then st
     else if now - e.2.lastActivityAt > t then evictUser st e.1 .idle
     else st).userInstances =
      (if idleEvictB now t e then mapDelete st.userInstances e.1
       else st.userInstances) := by
  by_cases h1 : e.2.pendingRequests > 0 <;>
    by_cases h2 : now - e.2.lastActivityAt > t <;>
      simp [idleEvictB, h1, h2, evictUser]

theorem idleStep_tokenToUserId (now t : Int) (st : ManagerState)
    (e : String × UserInstance) :
    (if e.2.pendingRequests > 0 then st
     else if now - e.2.lastActivityAt > t then evictUser st e.1 .idle
     else st).tokenToUserId = st.tokenToUserId := by
  by_cases h1 : e.2.pendingRequests > 0 <;>
    by_cases h2 : now - e.2.lastActivityAt > t <;>
      simp [h1, h2, evictUser]

theorem idleStep_events (now t : Int) (st : ManagerState)
    (e : String × UserInstance) :
    (if e.2.pendingRequests > 0 then st
     else if now - e.2.lastActivityAt > t then evictUser st e.1 .idle
     else st).events =
      st.events ++
        (if idleEvictB now t e then [ManagerEvent.userEvicted e.1 .idle] else []) := by
  by_cases h1 : e.2.pendingRequests > 0 <;>
    by_cases h2 : now - e.2.lastActivityAt > t <;>
      simp [idleEvictB, h1, h2, evictUser]

theorem cleanupIdleFold_userInstances (now t : Int) :
    ∀ (l : List (String × UserInstance)) (st : ManagerState),
      (l.foldl
        (fun st e =>
          if e.2.pendingRequests > 0 then st
          else if now - e.2.lastActivityAt > t then evictUser st e.1 .idle
          else st) st).userInstances =
        l.foldl (fun m e => if idleEvictB now t e then mapDelete m e.1 else m)
          st.userInstances
  | [], _ => rfl
  | e :: rest, st => by
    simp only [List.foldl_cons]
    rw [cleanupIdleFold_userInstances now t rest _, idleStep_userInstances now t st e]

theorem cleanupIdleFold_tokenToUserId (now t : Int) :
    ∀ (l : List (String × UserInstance)) (st : ManagerState),
      (l.foldl
        (fun st e =>
          if e.2.pendingRequests > 0 then st
          else if now - e.2.lastActivityAt > t then evictUser st e.1 .idle
          else st) st).tokenToUserId = st.tokenToUserId
  | [], _ => rfl
  | e :: rest, st => by
    simp only [List.foldl_cons]
    rw [cleanupIdleFold_tokenToUserId now t rest _, idleStep_tokenToUserId now t st e]

theorem cleanupIdleFold_events (now t : Int) :
    ∀ (l : List (String × UserInstance)) (st : ManagerState),
      (l.foldl
        (fun st e =>
          if e.2.pendingRequests > 0 then st
          else if now - e.2.lastActivityAt > t then evictUser st e.1 .idle
          else st) st).events =
        st.events ++
          (l.filter (idleEvictB now t)).map (fun e => ManagerEvent.userEvicted e.1 .idle)
  | [], _ => by simp
  | e :: rest, st => by
    simp only [List.foldl_cons]
    rw [cleanupIdleFold_events now t rest _, idleStep_events now t st e,
      List.filter_cons]
    by_cases hd : idleEvictB now t e
    · simp [hd]
    · simp [hd]

theorem deleteFold_cons_comm (p : String × UserInstance → Bool) :
    ∀ (l : List (String × UserInstance)) (e : String × UserInstance)
      (m : List (String × UserInstance)), (∀ f ∈ l, f.1 ≠ e.1) →
      l.foldl (fun m f => if p f then mapDelete m f.1 else m) (e :: m) =
        e :: l.foldl (fun m f => if p f then mapDelete m f.1 else m) m
  | [], _, _, _ => rfl
  | g :: rest, e, m, h => by
    simp only [List.foldl_cons]
    have hge : e.1 ≠ g.1 := fun hh => (h g (by simp)) hh.symm
    by_cases hp : p g
    · rw [if_pos hp, if_pos hp, mapDelete_cons, if_neg hge]
      exact deleteFold_cons_comm p rest e _ (fun f hf => h f (List.mem_cons_of_mem _ hf))
    · rw [if_neg hp, if_neg hp]
      exact deleteFold_cons_comm p rest e m (fun f hf => h f (List.mem_cons_of_mem _ hf))

theorem deleteFold_eq_filter (p : String × UserInstance → Bool) :
    ∀ l : List (String × UserInstance), (l.map Prod.fst).Nodup →
      l.foldl (fun m f => if p f then mapDelete m f.1 else m) l =
        l.filter (fun f => !p f)
  | [], _ => rfl
  | e :: rest, hnd => by
    simp only [List.map_cons, List.nodup_cons] at hnd
    have hnotin : ∀ f ∈ rest, f.1 ≠ e.1 := by
      intro f hf hfe
      exact hnd.1 (hfe ▸ List.mem_map.mpr ⟨f, hf, rfl⟩)
    simp only [List.foldl_cons, List.filter_cons]
    by_cases hp : p e
    · rw [if_pos hp, mapDelete_cons, if_pos rfl,
        mapDelete_of_not_mem (fun hmem => hnd.1 hmem)]
      rw [deleteFold_eq_filter p rest hnd.2]
      simp [hp]
    · rw [if_neg hp, deleteFold_cons_comm p rest e rest hnotin,
        deleteFold_eq_filter p rest hnd.2]
      simp [hp]

theorem cleanupIdlePass_userInstances {now t : Int} {s : ManagerState}
    (hnd : (s.userInstances.map Prod.fst).Nodup) :
    (cleanupIdlePass now t s).userInstances =
      s.userInstances.filter (fun e => !idleEvictB now t e) := by
  rw [cleanupIdlePass, cleanupIdleFold_userInstances now t s.userInstances s,
    deleteFold_eq_filter (idleEvictB now t) s.userInstances hnd]

theorem cleanupIdlePass_tokenToUserId (now t : Int) (s : ManagerState) :
    (cleanupIdlePass now t s).tokenToUserId = s.tokenToUserId :=
  cleanupIdleFold_tokenToUserId now t s.userInstances s

theorem cleanupIdlePass_events (now t : Int) (s : ManagerState) :
    (cleanupIdlePass now t s).events =
      s.events ++
        (s.userInstances.filter (idleEvictB now t)).map
          (fun e => ManagerEvent.userEvicted e.1 .idle) :=
  cleanupIdleFold_events now t s.userInstances s

theorem findOldestAux_eq (l : List (String × UserInstance)) :
    ∀ acc : Option (String × Int),
      l.foldl
        (fun acc e =>
          if e.2.pendingRequests > 0 then acc
          else
            match acc with
            | none => some (e.1, e.2.lastActivityAt)
            | some best =>
              if e.2.lastActivityAt < best.2 then some (e.1, e.2.lastActivityAt)
              else acc) acc =
      (match acc, specFirstOldest l with
        | none, r => r
        | some b, none => some b
        | some b, some c => if c.2 < b.2 then some c else some b) := by
  induction l with
  | nil => intro acc; cases acc <;> rfl
  | cons e rest ih =>
    intro acc
    simp only [List.foldl_cons]
    by_cases hp : e.2.pendingRequests > 0
    · rw [if_pos hp]
      rw [ih acc]
      simp only [specFirstOldest, if_pos hp]
    · rw [if_neg hp]
      cases acc with
      | none =>
        rw [ih (some (e.1, e.2.lastActivityAt))]
        simp only [specFirstOldest, if_neg hp]
        rcases hrest : specFirstOldest rest with _ | b
        · rfl
        · rfl
      | some a =>
        dsimp only
        by_cases hcomp : e.2.lastActivityAt < a.2
        · rw [if_pos hcomp, ih (some (e.1, e.2.lastActivityAt))]
          simp only [specFirstOldest, if_neg hp]
          rcases hrest : specFirstOldest rest with _ | b
          · simp [hcomp]
          · by_cases hb : b.2 < e.2.lastActivityAt
            · have hba : b.2 < a.2 := by omega
              simp [hb, hba]
            · simp [hb, hcomp]
        · rw [if_neg hcomp, ih (some a)]
          simp only [specFirstOldest, if_neg hp]
          rcases hrest : specFirstOldest rest with _ | b
          · simp [hcomp]
          · by_cases hb : b.2 < e.2.lastActivityAt
            · simp [hb]
            · have hba : ¬ b.2 < a.2 := by omega
              simp [hb, hcomp, hba]

theorem findOldestCandidate_eq_spec (l : List (String × UserInstance)) :
    findOldestCandidate l = (specFirstOldest l).map Prod.fst := by
  rw [findOldestCandidate, findOldestAux_eq l none]

theorem specFirstOldest_none_iff (l : List (String × UserInstance)) :
    specFirstOldest l = none ↔ ∀ e ∈ l, e.2.pendingRequests > 0 := by
  induction l with
  | nil => simp [specFirstOldest]
  | cons e rest ih =>
    simp only [specFirstOldest]
    by_cases hp : e.2.pendingRequests > 0
    · rw [if_pos hp, ih]
      simp [hp]
    · rw [if_neg hp]
      rcases hrest : specFirstOldest rest with _ | b
      · simp [hp]
      · simp [hp]
        split <;> simp

theorem specFirstOldest_some_spec (l : List (String × UserInstance)) :
    ∀ u : String, ∀ a : Int, specFirstOldest l = some (u, a) →
      ∃ inst, (u, inst) ∈ l ∧ inst.lastActivityAt = a ∧
        ¬ inst.pendingRequests > 0 ∧
        ∀ e ∈ l, ¬ e.2.pendingRequests > 0 → a ≤ e.2.lastActivityAt := by
  induction l with
  | nil => intro u a h; simp [specFirstOldest] at h
  | cons e rest ih =>
    intro u a h
    simp only [specFirstOldest] at h
    by_cases hp : e.2.pendingRequests > 0
    · rw [if_pos hp] at h
      rcases ih u a h with ⟨inst, hmem, hla, hpend, hmin⟩
      refine ⟨inst, List.mem_cons_of_mem _ hmem, hla, hpend, ?_⟩
      intro f hf hfp
      rcases List.mem_cons.mp hf with hfe | hfr
      · exact absurd hp (hfe ▸ hfp)
      · exact hmin f hfr hfp
    · rw [if_neg hp] at h
      rcases hrest : specFirstOldest rest with _ | b
      · rw [hrest] at h
        simp only [Option.some.injEq, Prod.mk.injEq] at h
        refine ⟨e.2, ?_, h.2, hp, ?_⟩
        · rw [← h.1]
          exact List.mem_cons_self _ _
        · intro f hf hfp
          rcases List.mem_cons.mp hf with hfe | hfr
          · rw [hfe, ← h.2]
          · exact absurd ((specFirstOldest_none_iff rest).mp hrest f hfr) hfp
      · rw [hrest] at h
        dsimp only at h
        by_cases hcomp : b.2 < e.2.lastActivityAt
        · rw [if_pos hcomp] at h
          obtain ⟨hb1, hb2⟩ : b.1 = u ∧ b.2 = a := by
            obtain ⟨x, y⟩ := b
            simpa using h
          rcases ih u a
              (by rw [hrest]; exact congrArg some (Prod.ext hb1 hb2)) with
            ⟨inst, hmem, hla, hpend, hmin⟩
          refine ⟨inst, List.mem_cons_of_mem _ hmem, hla, hpend, ?_⟩
          intro f hf hfp
          rcases List.mem_cons.mp hf with hfe | hfr
          · rw [hfe]
            omega
          · exact hmin f hfr hfp
        · rw [if_neg hcomp] at h
          simp only [Option.some.injEq, Prod.mk.injEq] at h
          rcases ih b.1 b.2 (by rw [hrest]) with ⟨inst, hmem, hla, hpend, hmin⟩
          refine ⟨e.2, ?_, h.2, hp, ?_⟩
          · rw [← h.1]
            exact List.mem_cons_self _ _
          · intro f hf hfp
            rcases List.mem_cons.mp hf with hfe | hfr
            · rw [hfe, ← h.2]
            · have := hmin f hfr hfp
              omega

theorem findOldestCandidate_some_spec {l : List (String × UserInstance)} {u : String}
    (h : findOldestCandidate l = some u) :
    ∃ inst, (u, inst) ∈ l ∧ ¬ inst.pendingRequests > 0 ∧
      ∀ e ∈ l, ¬ e.2.pendingRequests > 0 → inst.lastActivityAt ≤ e.2.lastActivityAt := by
  rw [findOldestCandidate_eq_spec] at h
  rcases hspec : specFirstOldest l with _ | b
  · rw [hspec] at h
    cases h
  · simp only [hspec, Option.map_some', Option.some.injEq] at h
    rcases specFirstOldest_some_spec l b.1 b.2 (by rw [hspec]) with
      ⟨inst, hmem, hla, hpend, hmin⟩
    exact ⟨inst, h ▸ hmem, hpend, fun e he hep => hla ▸ hmin e he hep⟩

theorem findOldestCandidate_mem {l : List (String × UserInstance)} {u : String}
    (h : findOldestCandidate l = some u) : u ∈ l.map Prod.fst := by
  rcases findOldestCandidate_some_spec h with ⟨inst, hmem, _, _⟩
  exact List.mem_map.mpr ⟨(u, inst), hmem, rfl⟩

theorem cleanupLruPassFuel_succ (m fuel : Nat) (s : ManagerState) :
    cleanupLruPassFuel m (fuel + 1) s =
      if s.userInstances.length > m then
        match findOldestCandidate s.userInstances with
        | some uid => cleanupLruPassFuel m fuel (evictUser s uid .lru)
        | none => s
      else s := rfl

theorem cleanupLruPassFuel_fuel_ge (m : Nat) :
    ∀ (fuel : Nat) (s : ManagerState), s.userInstances.length ≤ fuel →
      cleanupLruPassFuel m (fuel + 1) s = cleanupLruPassFuel m fuel s
  | 0, s, hle => by
    rw [cleanupLruPassFuel_succ, if_neg (by omega)]
    rfl
  | fuel + 1, s, hle => by
    rw [cleanupLruPassFuel_succ m (fuel + 1) s, cleanupLruPassFuel_succ m fuel s]
    by_cases h : s.userInstances.length > m
    · rw [if_pos h, if_pos h]
      rcases hf : findOldestCandidate s.userInstances with _ | uid
      · rfl
      · have hlt := mapDelete_length_lt (findOldestCandidate_mem hf)
        exact cleanupLruPassFuel_fuel_ge m fuel (evictUser s uid .lru)
          (by simp only [evictUser]; omega)
    · rw [if_neg h, if_neg h]

theorem cleanupLruPassFuel_eq_of_ge (m : Nat) :
    ∀ (fuel : Nat) (s : ManagerState), s.userInstances.length ≤ fuel →
      cleanupLruPassFuel m fuel s = cleanupLruPass m s
  | 0, s, hle => by
    rw [cleanupLruPass, Nat.le_zero.mp hle]
  | fuel + 1, s, hle => by
    rcases Nat.lt_or_ge s.userInstances.length (fuel + 1) with hlt | hge
    · rw [cleanupLruPassFuel_fuel_ge m fuel s (by omega)]
      exact cleanupLruPassFuel_eq_of_ge m fuel s (by omega)
    · have : s.userInstances.length = fuel + 1 := by omega
      rw [cleanupLruPass, this]

theorem cleanupLruPass_of_le {m : Nat} {s : ManagerState}
    (h : s.userInstances.length ≤ m) : cleanupLruPass m s = s := by
  rw [cleanupLruPass]
  rcases hlen : s.userInstances.length with _ | n
  · rfl
  · rw [cleanupLruPassFuel_succ, if_neg (by omega)]

theorem cleanupLruPass_stop {m : Nat} {s : ManagerState}
    (h : s.userInstances.length > m)
    (hn : findOldestCandidate s.userInstances = none) : cleanupLruPass m s = s := by
  rw [cleanupLruPass]
  rcases hlen : s.userInstances.length with _ | n
  · omega
  · rw [cleanupLruPassFuel_succ, if_pos h, hn]

theorem cleanupLruPass_step {m : Nat} {s : ManagerState} {uid : String}
    (h : s.userInstances.length > m)
    (hf : findOldestCandidate s.userInstances = some uid) :
    cleanupLruPass m s = cleanupLruPass m (evictUser s uid .lru) := by
  rw [cleanupLruPass]
  rcases hlen : s.userInstances.length with _ | n
  · omega
  · rw [cleanupLruPassFuel_succ, if_pos h, hf]
    have hlt := mapDelete_length_lt (findOldestCandidate_mem hf)
    exact cleanupLruPassFuel_eq_of_ge m n (evictUser s uid .lru)
      (by simp only [evictUser]; omega)

theorem cleanupLruPassFuel_tokenToUserId (m : Nat) :
    ∀ (fuel : Nat) (s : ManagerState),
      (cleanupLruPassFuel m fuel s).tokenToUserId = s.tokenToUserId
  | 0, _ => rfl
  | fuel + 1, s => by
    rw [cleanupLruPassFuel_succ]
    by_cases h : s.userInstances.length > m
    · rw [if_pos h]
      rcases hf : findOldestCandidate s.userInstances with _ | uid
      · rfl
      · rw [cleanupLruPassFuel_tokenToUserId m fuel (evictUser s uid .lru)]
        rfl
    · rw [if_neg h]

theorem cleanupLruPassFuel_preserves_pending (m : Nat) :
    ∀ (fuel : Nat) (s : ManagerState) (u : String) (inst : UserInstance),
      (s.userInstances.map Prod.fst).Nodup →
      mapGet s.userInstances u = some inst → inst.pendingRequests > 0 →
      mapGet (cleanupLruPassFuel m fuel s).userInstances u = some inst
  | 0, s, u, inst, _, hget, _ => hget
  | fuel + 1, s, u, inst, hnd, hget, hpend => by
    rw [cleanupLruPassFuel_succ]
    by_cases h : s.userInstances.length > m
    · rw [if_pos h]
      rcases hf : findOldestCandidate s.userInstances with _ | uid
      · exact hget
      · rcases findOldestCandidate_some_spec hf with ⟨inst2, hmem, hnp, _⟩
        have hne : u ≠ uid := by
          intro hufo
          rw [← hufo] at hmem
          rw [mapGet_of_mem_nodup hnd hmem] at hget
          injection hget with hh
          rw [hh] at hnp
          exact hnp hpend
        refine cleanupLruPassFuel_preserves_pending m fuel (evictUser s uid .lru) u inst
          ?_ ?_ hpend
        · exact mapDelete_nodup uid hnd
        · rw [show (evictUser s uid .lru).userInstances =
            mapDelete s.userInstances uid from rfl]
          rw [mapGet_mapDelete_ne _ _ _ hne]
          exact hget
    · rw [if_neg h]
      exact hget

/-! ## Claim C3 — the two cleanup passes -/

/-- C3: `cleanupInactiveUsers` is the idle pass followed by the LRU pass.
Idle pass (stated for states with duplicate-free keys, which every
reachable `Map` has): exactly the instances with `pendingRequests == 0`
and `now - lastActivityAt > userIdleTimeoutMs` are dropped, each emitting
a `user-evicted`/`idle` event in iteration order. LRU pass: the scan
agrees with `specFirstOldest` — the first entry in stable iteration
order attaining the oldest `lastActivityAt` among entries with
`pendingRequests == 0` — the scan returns `none` exactly when every
remaining instance has pending work, and the `while` loop evicts the
picked instance with reason `lru` while the size exceeds
`maxCachedUsers`, stopping when no candidate remains. -/
theorem cleanupInactiveUsers_two_pass_spec (opts : ManagerOptions) (now : Int)
    (s : ManagerState) :
    cleanupInactiveUsers opts now s =
      cleanupLruPass opts.maxCachedUsers
        (cleanupIdlePass now opts.userIdleTimeoutMs s) ∧
    ((s.userInstances.map Prod.fst).Nodup →
      (cleanupIdlePass now opts.userIdleTimeoutMs s).userInstances =
        s.userInstances.filter
          (fun e => !idleEvictB now opts.userIdleTimeoutMs e)) ∧
    (cleanupIdlePass now opts.userIdleTimeoutMs s).events =
      s.events ++
        (s.userInstances.filter (idleEvictB now opts.userIdleTimeoutMs)).map
          (fun e => ManagerEvent.userEvicted e.1 .idle) ∧
    (∀ l : List (String × UserInstance),
      findOldestCandidate l = (specFirstOldest l).map Prod.fst) ∧
    (∀ l : List (String × UserInstance),
      specFirstOldest l = none ↔ ∀ e ∈ l, e.2.pendingRequests > 0) ∧
    (∀ (l : List (String × UserInstance)) (u : String) (a : Int),
      specFirstOldest l = some (u, a) →
      ∃ inst, (u, inst) ∈ l ∧ inst.lastActivityAt = a ∧
        ¬ inst.pendingRequests > 0 ∧
        ∀ e ∈ l, ¬ e.2.pendingRequests > 0 → a ≤ e.2.lastActivityAt) ∧
    (∀ (m : Nat) (s2 : ManagerState),
      (s2.userInstances.length ≤ m → cleanupLruPass m s2 = s2) ∧
      (s2.userInstances.length > m →
        findOldestCandidate s2.userInstances = none → cleanupLruPass m s2 = s2) ∧
      (s2.userInstances.length > m → ∀ uid,
        findOldestCandidate s2.userInstances = some uid →
          cleanupLruPass m s2 = cleanupLruPass m (evictUser s2 uid .lru))) := by
  refine ⟨rfl, fun hnd => cleanupIdlePass_userInstances hnd,
    cleanupIdlePass_events now opts.userIdleTimeoutMs s,
    findOldestCandidate_eq_spec, specFirstOldest_none_iff,
    fun l u a h => specFirstOldest_some_spec l u a h,
    fun m s2 => ⟨fun h => cleanupLruPass_of_le h,
      fun h hn => cleanupLruPass_stop h hn,
      fun h uid hf => cleanupLruPass_step h hf⟩⟩

/-- C3 witness: at `now = 2000` with a 1000 ms idle timeout, the idle
pass over `sampleState` keeps the pending user `u-1` and drops the idle
user `u-2`. -/
theorem cleanupInactiveUsers_two_pass_spec_witness :
    (cleanupIdlePass 2000 sampleOpts.userIdleTimeoutMs sampleState).userInstances =
      sampleState.userInstances.filter
        (fun e => !idleEvictB 2000 sampleOpts.userIdleTimeoutMs e) :=
  (cleanupInactiveUsers_two_pass_spec sampleOpts 2000 sampleState).2.1 (by decide)

/-! ## Claim C1 — pending requests block eviction -/

theorem mapGet_filter {p : String × UserInstance → Bool}
    {l : List (String × UserInstance)} {u : String} {inst : UserInstance}
    (h : mapGet l u = some inst) (hp : p (u, inst) = true) :
    mapGet (l.filter p) u = some inst := by
  induction l with
  | nil => simp [mapGet] at h
  | cons e rest ih =>
    rw [mapGet_cons] at h
    by_cases he : e.1 = u
    · rw [if_pos he] at h
      injection h with hh
      have he2 : e = (u, inst) := by
        obtain ⟨a, b⟩ := e
        simp only at he hh
        rw [he, hh]
      rw [he2, List.filter_cons, if_pos hp, mapGet_cons, if_pos rfl]
    · rw [if_neg he] at h
      rw [List.filter_cons]
      by_cases hpe : p e = true
      · rw [if_pos hpe, mapGet_cons, if_neg he]
        exact ih h
      · rw [if_neg hpe]
        exact ih h

/-- C1 (amended): an instance with `pendingRequests > 0` survives
`cleanupInactiveUsers` untouched — neither the idle pass nor the LRU
pass removes it — but `forceEvictUser` removes it unconditionally, so
the protection does not extend to manual eviction. -/
theorem pending_user_survives_cleanup_but_not_forceEvict
    (opts : ManagerOptions) (now : Int) (s : ManagerState) (u : String)
    (inst : UserInstance)
    (hnd : (s.userInstances.map Prod.fst).Nodup)
    (hget : mapGet s.userInstances u = some inst)
    (hpend : inst.pendingRequests > 0) :
    mapGet (cleanupInactiveUsers opts now s).userInstances u = some inst ∧
    mapGet (cleanupIdlePass now opts.userIdleTimeoutMs s).userInstances u = some inst ∧
    (sanitizeUserId u = .ok u →
      (forceEvictUser s u).1 = true ∧
      mapGet (forceEvictUser s u).2.userInstances u = none) := by
  have hidle_eq := @cleanupIdlePass_userInstances now opts.userIdleTimeoutMs s hnd
  have hkeep : (!idleEvictB now opts.userIdleTimeoutMs (u, inst)) = true := by
    simp [idleEvictB, hpend]
  have hidle : mapGet (cleanupIdlePass now opts.userIdleTimeoutMs s).userInstances u =
      some inst := by
    rw [hidle_eq]
    exact mapGet_filter hget hkeep
  have hnd2 : ((cleanupIdlePass now opts.userIdleTimeoutMs s).userInstances.map
      Prod.fst).Nodup := by
    rw [hidle_eq]
    exact ((List.filter_sublist _).map Prod.fst).nodup hnd
  refine ⟨?_, hidle, ?_⟩
  · rw [cleanupInactiveUsers, cleanupLruPass]
    exact cleanupLruPassFuel_preserves_pending opts.maxCachedUsers _ _ u inst
      hnd2 hidle hpend
  · intro hsan
    simp only [forceEvictUser, hsan]
    rw [if_pos (by simp [mapHas, hget])]
    exact ⟨rfl, mapGet_mapDelete_self s.userInstances u⟩

/-- C1 witness: in `sampleState` the user `u-1` has one pending request
and survives a full cleanup at a time when it would otherwise be idle
past the timeout. -/
theorem pending_user_survives_cleanup_witness :
    mapGet (cleanupInactiveUsers sampleOpts 5000 sampleState).userInstances "u-1" =
      some busyInst :=
  (pending_user_survives_cleanup_but_not_forceEvict sampleOpts 5000 sampleState
    "u-1" busyInst (by decide) rfl (by decide)).1

/-- C1 counterexample: `u-1` has `pendingRequests = 1 > 0`, yet
`forceEvictUser` — one of the claim's eviction operations — removes it
from the cache. -/
theorem forceEvictUser_removes_pending_user :
    busyInst.pendingRequests > 0 ∧
    mapGet sampleState.userInstances "u-1" = some busyInst ∧
    (forceEvictUser sampleState "u-1").1 = true ∧
    mapGet (forceEvictUser sampleState "u-1").2.userInstances "u-1" = none :=
  ⟨by decide, rfl, rfl, rfl⟩

/-! ## Claim C10 — eviction frame: the token index is untouched -/

/-- C10: every eviction path (`evictUser` with any reason — the target of
the idle, LRU and manual paths — `cleanupInactiveUsers`, and
`forceEvictUser`) removes only the evicted user's instance, cached
config and workspace resolver: entries of other users are untouched, the
token index is left unchanged, `hasToken` answers as before, and
`getStats().totalUsers` (the token-index size) is unchanged — in
particular never decreased — by any eviction. -/
theorem eviction_frame_spec (opts : ManagerOptions) (now : Int) (s : ManagerState)
    (u v token : String) (reason : EvictReason) (hv : v ≠ u) :
    (evictUser s u reason).tokenToUserId = s.tokenToUserId ∧
    mapGet (evictUser s u reason).userInstances u = none ∧
    mapGet (evictUser s u reason).configCache u = none ∧
    u ∉ (evictUser s u reason).workspaceResolvers ∧
    mapGet (evictUser s u reason).userInstances v = mapGet s.userInstances v ∧
    mapGet (evictUser s u reason).configCache v = mapGet s.configCache v ∧
    (v ∈ (evictUser s u reason).workspaceResolvers ↔ v ∈ s.workspaceResolvers) ∧
    hasToken (evictUser s u reason) token = hasToken s token ∧
    (getStats (evictUser s u reason)).totalUsers = (getStats s).totalUsers ∧
    (cleanupInactiveUsers opts now s).tokenToUserId = s.tokenToUserId ∧
    hasToken (cleanupInactiveUsers opts now s) token = hasToken s token ∧
    (getStats (cleanupInactiveUsers opts now s)).totalUsers =
      (getStats s).totalUsers ∧
    (forceEvictUser s u).2.tokenToUserId = s.tokenToUserId ∧
    hasToken (forceEvictUser s u).2 token = hasToken s token ∧
    (getStats (forceEvictUser s u).2).totalUsers = (getStats s).totalUsers := by
  have hclean : (cleanupInactiveUsers opts now s).tokenToUserId = s.tokenToUserId := by
    rw [cleanupInactiveUsers, cleanupLruPass, cleanupLruPassFuel_tokenToUserId,
      cleanupIdlePass_tokenToUserId]
  have hforce : (forceEvictUser s u).2.tokenToUserId = s.tokenToUserId := by
    rcases hsan : sanitizeUserId u with msg | safe
    · simp [forceEvictUser, hsan]
    · simp only [forceEvictUser, hsan]
      by_cases hh : mapHas s.userInstances safe = true
      · rw [if_pos hh]
        rfl
      · rw [if_neg hh]
  refine ⟨rfl, mapGet_mapDelete_self _ _, mapGet_mapDelete_self _ _, ?_,
    mapGet_mapDelete_ne _ _ _ hv, mapGet_mapDelete_ne _ _ _ hv, ?_, rfl, rfl,
    hclean, ?_, ?_, hforce, ?_, ?_⟩
  · intro hmem
    rcases List.mem_filter.mp hmem with ⟨_, hne⟩
    simp at hne
  · constructor
    · intro hmem
      exact (List.mem_filter.mp hmem).1
    · intro hmem
      exact List.mem_filter.mpr ⟨hmem, by simp [hv]⟩
  · rw [hasToken, hasToken, mapHas, mapHas, hclean]
  · show (cleanupInactiveUsers opts now s).tokenToUserId.length =
      s.tokenToUserId.length
    rw [hclean]
  · rw [hasToken, hasToken, mapHas, mapHas, hforce]
  · show (forceEvictUser s u).2.tokenToUserId.length = s.tokenToUserId.length
    rw [hforce]

/-- C10 witness: evicting `u-2` from `sampleState` keeps `u-1`'s cache
entry intact. -/
theorem eviction_frame_spec_witness :
    mapGet (evictUser sampleState "u-2" .manual).userInstances "u-1" =
      mapGet sampleState.userInstances "u-1" :=
  (eviction_frame_spec sampleOpts 0 sampleState "u-2" "u-1" "tok-2" .manual
    (by decide)).2.2.2.2.1

/-! ## Helper lemmas for the pending-request counter -/

theorem countInc_cons (o : PendOp) (p : List PendOp) :
    countInc (o :: p) = countInc p + (if o = PendOp.inc then 1 else 0) := by
  cases o <;> simp [countInc, List.filter_cons]

theorem countDec_cons (o : PendOp) (p : List PendOp) :
    countDec (o :: p) = countDec p + (if o = PendOp.dec then 1 else 0) := by
  cases o <;> simp [countDec, List.filter_cons]

theorem applyPendOps_pending_general (now : Int) (u : String)
    (hsan : sanitizeUserId u = .ok u) (ops : List PendOp) :
    ∀ (s : ManagerState) (inst : UserInstance),
      mapGet s.userInstances u = some inst →
      (∀ p t : List PendOp, p ++ t = ops →
        (countDec p : Int) ≤ inst.pendingRequests + countInc p) →
      ∃ inst2, mapGet (applyPendOps now u ops s).userInstances u = some inst2 ∧
        inst2.pendingRequests =
          inst.pendingRequests + countInc ops - countDec ops := by
  induction ops with
  | nil =>
    intro s inst hget _
    exact ⟨inst, hget, by simp [countInc, countDec]⟩
  | cons o rest ih =>
    intro s inst hget hpre
    cases o with
    | inc =>
      rw [applyPendOps]
      have hstep : incrementPendingRequests now s u = { s with userInstances := mapSet s.userInstances u { inst with pendingRequests := inst.pendingRequests + 1, lastActivityAt := now } } := by
        simp only [incrementPendingRequests, hsan, hget]
      rw [hstep]
      have hpre2 : ∀ p t : List PendOp, p ++ t = rest →
          (countDec p : Int) ≤ (inst.pendingRequests + 1) + countInc p := by
        intro p t hpt
        have h2 := hpre (.inc :: p) t (by rw [List.cons_append, hpt])
        rw [countInc_cons, countDec_cons] at h2
        simp only [if_pos rfl, if_neg (by decide : ¬ PendOp.inc = PendOp.dec)] at h2
        push_cast at h2 ⊢
        omega
      rcases ih { s with userInstances := mapSet s.userInstances u { inst with pendingRequests := inst.pendingRequests + 1, lastActivityAt := now } } { inst with pendingRequests := inst.pendingRequests + 1, lastActivityAt := now } (mapGet_mapSet_self s.userInstances u _) hpre2 with ⟨i3, h3, hp3⟩
      refine ⟨i3, h3, ?_⟩
      rw [hp3, countInc_cons, countDec_cons]
      simp only [if_pos rfl, if_neg (by decide : ¬ PendOp.inc = PendOp.dec)]
      push_cast
      ring
    | dec =>
      have hpos : inst.pendingRequests > 0 := by
        have h2 := hpre [.dec] rest rfl
        rw [countInc_cons, countDec_cons] at h2
        simp only [if_neg (by decide : ¬ PendOp.dec = PendOp.inc), if_pos rfl] at h2
        simp [countInc, countDec] at h2
        omega
      rw [applyPendOps]
      have hstep : decrementPendingRequests now s u = { s with userInstances := mapSet s.userInstances u { inst with pendingRequests := inst.pendingRequests - 1, lastActivityAt := now } } := by
        simp only [decrementPendingRequests, hsan, hget, if_pos hpos]
      rw [hstep]
      have hpre2 : ∀ p t : List PendOp, p ++ t = rest →
          (countDec p : Int) ≤ (inst.pendingRequests - 1) + countInc p := by
        intro p t hpt
        have h2 := hpre (.dec :: p) t (by rw [List.cons_append, hpt])
        rw [countInc_cons, countDec_cons] at h2
        simp only [if_neg (by decide : ¬ PendOp.dec = PendOp.inc), if_pos rfl] at h2
        push_cast at h2 ⊢
        omega
      rcases ih { s with userInstances := mapSet s.userInstances u { inst with pendingRequests := inst.pendingRequests - 1, lastActivityAt := now } } { inst with pendingRequests := inst.pendingRequests - 1, lastActivityAt := now } (mapGet_mapSet_self s.userInstances u _) hpre2 with ⟨i3, h3, hp3⟩
      refine ⟨i3, h3, ?_⟩
      rw [hp3, countInc_cons, countDec_cons]
      simp only [if_neg (by decide : ¬ PendOp.dec = PendOp.inc), if_pos rfl]
      push_cast
      ring

theorem pendingNonneg_mapSet {l : List (String × UserInstance)} {k : String}
    {v : UserInstance} (h : pendingNonneg l) (hv : 0 ≤ v.pendingRequests) :
    pendingNonneg (mapSet l k v) := by
  intro e he
  unfold mapSet at he
  by_cases hfind : (l.find? (fun e => e.1 = k)).isSome = true
  · rw [if_pos hfind] at he
    rcases List.mem_map.mp he with ⟨g, hg, rfl⟩
    by_cases hgk : g.1 = k
    · simp only [if_pos hgk]
      exact hv
    · simp only [if_neg hgk]
      exact h g hg
  · rw [if_neg hfind] at he
    rcases List.mem_append.mp he with hg | hg
    · exact h e hg
    · rw [List.mem_singleton.mp hg]
      exact hv

theorem pendingNonneg_mapDelete {l : List (String × UserInstance)} {k : String}
    (h : pendingNonneg l) : pendingNonneg (mapDelete l k) :=
  fun e he => h e (List.mem_of_mem_filter he)

theorem initializeUserInstance_pendingNonneg (opts : ManagerOptions) (now : Int)
    (userId config : String) (cst : Option UserStatus) (ck : Option String)
    (s : ManagerState) (h : pendingNonneg s.userInstances) :
    pendingNonneg
      (initializeUserInstance opts now userId config cst ck s).2.userInstances :=
  pendingNonneg_mapSet h (le_refl 0)

theorem authenticateToken_pendingNonneg (opts : ManagerOptions) (now : Int)
    (verify : VerifyOutcome) (s : ManagerState) (token : String)
    (h : pendingNonneg s.userInstances) :
    pendingNonneg (authenticateToken opts now verify s token).2.userInstances := by
  simp only [authenticateToken]
  repeat' split
  all_goals first
    | exact h
    | exact initializeUserInstance_pendingNonneg _ _ _ _ _ _ _ h
theorem getUserInstance_pendingNonneg (opts : ManagerOptions) (now : Int)
    (diskConfig : Option String) (s : ManagerState) (userId : String)
    (h : pendingNonneg s.userInstances) :
    pendingNonneg (getUserInstance opts now diskConfig s userId).2.userInstances := by
  simp only [getUserInstance]
  repeat' split
  all_goals first
    | exact h
    | exact initializeUserInstance_pendingNonneg _ _ _ _ _ _ _ h
    | (rename_i cached heq
       apply pendingNonneg_mapSet h
       exact h _ (mapGet_mem heq))

theorem updateUserConfigsStep_pendingNonneg (s : ManagerState) (c : CloudUserConfig)
    (h : pendingNonneg s.userInstances) :
    pendingNonneg (updateUserConfigsStep s c).userInstances := by
  simp only [updateUserConfigsStep]
  repeat' split
  all_goals first
    | exact h
    | (rename_i existing heq
       apply pendingNonneg_mapSet h
       exact h _ (mapGet_mem heq))

theorem updateUserConfigs_foldl_pendingNonneg :
    ∀ (configs : List CloudUserConfig) (s : ManagerState),
      pendingNonneg s.userInstances →
      pendingNonneg (configs.foldl updateUserConfigsStep s).userInstances
  | [], _, h => h
  | c :: rest, s, h =>
    updateUserConfigs_foldl_pendingNonneg rest _
      (updateUserConfigsStep_pendingNonneg s c h)

theorem updateUserConfigs_pendingNonneg (nowIso : String) (s : ManagerState)
    (configs : List CloudUserConfig) (h : pendingNonneg s.userInstances) :
    pendingNonneg (updateUserConfigs nowIso s configs).userInstances :=
  updateUserConfigs_foldl_pendingNonneg configs s h

theorem incrementPendingRequests_pendingNonneg (now : Int) (s : ManagerState)
    (userId : String) (h : pendingNonneg s.userInstances) :
    pendingNonneg (incrementPendingRequests now s userId).userInstances := by
  simp only [incrementPendingRequests]
  repeat' split
  all_goals first
    | exact h
    | (rename_i inst heq
       apply pendingNonneg_mapSet h
       show 0 ≤ inst.pendingRequests + 1
       have h0 : 0 ≤ inst.pendingRequests := h _ (mapGet_mem heq)
       omega)

theorem decrementPendingRequests_pendingNonneg (now : Int) (s : ManagerState)
    (userId : String) (h : pendingNonneg s.userInstances) :
    pendingNonneg (decrementPendingRequests now s userId).userInstances := by
  simp only [decrementPendingRequests]
  rcases sanitizeUserId userId with _ | safe
  · exact h
  · dsimp only
    rcases mapGet s.userInstances safe with _ | inst
    · exact h
    · dsimp only
      by_cases hpos : inst.pendingRequests > 0
      · rw [if_pos hpos]
        apply pendingNonneg_mapSet h
        show 0 ≤ inst.pendingRequests - 1
        omega
      · rw [if_neg hpos]
        exact h

theorem cleanupIdleFold_pendingNonneg (now t : Int) :
    ∀ (l : List (String × UserInstance)) (st : ManagerState),
      pendingNonneg st.userInstances →
      pendingNonneg ((l.foldl
        (fun st e =>
          if e.2.pendingRequests > 0 then st
          else if now - e.2.lastActivityAt > t then evictUser st e.1 .idle
          else st) st)).userInstances
  | [], _, h => h
  | e :: rest, st, h => by
    simp only [List.foldl_cons]
    apply cleanupIdleFold_pendingNonneg now t rest
    by_cases h1 : e.2.pendingRequests > 0
    · rw [if_pos h1]
      exact h
    · rw [if_neg h1]
      by_cases h2 : now - e.2.lastActivityAt > t
      · rw [if_pos h2]
        exact pendingNonneg_mapDelete h
      · rw [if_neg h2]
        exact h

theorem cleanupIdlePass_pendingNonneg (now t : Int) (s : ManagerState)
    (h : pendingNonneg s.userInstances) :
    pendingNonneg (cleanupIdlePass now t s).userInstances :=
  cleanupIdleFold_pendingNonneg now t s.userInstances s h

theorem cleanupLruPassFuel_pendingNonneg (m : Nat) :
    ∀ (fuel : Nat) (s : ManagerState), pendingNonneg s.userInstances →
      pendingNonneg (cleanupLruPassFuel m fuel s).userInstances
  | 0, _, h => h
  | fuel + 1, s, h => by
    rw [cleanupLruPassFuel_succ]
    by_cases hlen : s.userInstances.length > m
    · rw [if_pos hlen]
      rcases hf : findOldestCandidate s.userInstances with _ | uid
      · exact h
      · exact cleanupLruPassFuel_pendingNonneg m fuel _ (pendingNonneg_mapDelete h)
    · rw [if_neg hlen]
      exact h

theorem cleanupInactiveUsers_pendingNonneg (opts : ManagerOptions) (now : Int)
    (s : ManagerState) (h : pendingNonneg s.userInstances) :
    pendingNonneg (cleanupInactiveUsers opts now s).userInstances := by
  rw [cleanupInactiveUsers, cleanupLruPass]
  exact cleanupLruPassFuel_pendingNonneg opts.maxCachedUsers _ _
    (cleanupIdlePass_pendingNonneg now opts.userIdleTimeoutMs s h)

theorem forceEvictUser_pendingNonneg (s : ManagerState) (userId : String)
    (h : pendingNonneg s.userInstances) :
    pendingNonneg (forceEvictUser s userId).2.userInstances := by
  simp only [forceEvictUser]
  repeat' split
  all_goals first
    | exact h
    | exact pendingNonneg_mapDelete h

theorem recordSyncFailure_pendingNonneg (s : ManagerState) (error : String)
    (h : pendingNonneg s.userInstances) :
    pendingNonneg (recordSyncFailure s error).userInstances := h

theorem applyOp_pendingNonneg (opts : ManagerOptions) (now : Int) (op : ManagerOp)
    (s : ManagerState) (h : pendingNonneg s.userInstances) :
    pendingNonneg (applyOp opts now op s).userInstances := by
  cases op with
  | authToken token verify => exact authenticateToken_pendingNonneg opts now verify s token h
  | getUser userId diskConfig => exact getUserInstance_pendingNonneg opts now diskConfig s userId h
  | updateConfigs nowIso configs => exact updateUserConfigs_pendingNonneg nowIso s configs h
  | syncFailure error => exact recordSyncFailure_pendingNonneg s error h
  | incPending userId => exact incrementPendingRequests_pendingNonneg now s userId h
  | decPending userId => exact decrementPendingRequests_pendingNonneg now s userId h
  | cleanup => exact cleanupInactiveUsers_pendingNonneg opts now s h
  | forceEvict userId => exact forceEvictUser_pendingNonneg s userId h

/-! ## Claim C9 — pending-request counter conservation -/

/-- C9: (1) starting from a zero counter, any interleaving of the same
number of increments and decrements in which no front segment has more
decrements than increments ends with the counter at zero; (2) a
decrement on a zero (or negative) counter is a complete no-op, leaving
the state untouched; (3) every manager operation — authentication,
instance loading, config sync, failure recording, both counter
operations, cleanup, and forced eviction — preserves
`pendingRequests ≥ 0` for every cached instance, so the counter never
goes negative. -/
theorem pendingRequests_counter_spec :
    (∀ (now : Int) (u : String) (s : ManagerState) (inst : UserInstance)
        (ops : List PendOp),
      sanitizeUserId u = .ok u →
      mapGet s.userInstances u = some inst →
      inst.pendingRequests = 0 →
      MatchedInterleaving ops →
      countInc ops = countDec ops →
      ∃ inst2, mapGet (applyPendOps now u ops s).userInstances u = some inst2 ∧
        inst2.pendingRequests = 0) ∧
    (∀ (now : Int) (s : ManagerState) (u : String) (inst : UserInstance),
      sanitizeUserId u = .ok u →
      mapGet s.userInstances u = some inst →
      ¬ inst.pendingRequests > 0 →
      decrementPendingRequests now s u = s) ∧
    (∀ (opts : ManagerOptions) (now : Int) (op : ManagerOp) (s : ManagerState),
      pendingNonneg s.userInstances →
      pendingNonneg (applyOp opts now op s).userInstances) := by
  refine ⟨?_, ?_, applyOp_pendingNonneg⟩
  · intro now u s inst ops hsan hget hzero hmatch hcount
    have hpre : ∀ p t : List PendOp, p ++ t = ops →
        (countDec p : Int) ≤ inst.pendingRequests + countInc p := by
      intro p t hpt
      have hle := hmatch p t hpt
      rw [hzero]
      omega
    rcases applyPendOps_pending_general now u hsan ops s inst hget hpre with
      ⟨inst2, h2, hp2⟩
    refine ⟨inst2, h2, ?_⟩
    rw [hp2, hzero, hcount]
    ring
  · intro now s u inst hsan hget hz
    simp only [decrementPendingRequests, hsan, hget, if_neg hz]

/-- C9 witness: two increments followed by two decrements on the idle
user `u-2` of `sampleState` end with the counter back at zero. -/
theorem pendingRequests_counter_spec_witness :
    ∃ inst2,
      mapGet (applyPendOps 7 "u-2" [.inc, .inc, .dec, .dec]
        sampleState).userInstances "u-2" = some inst2 ∧
      inst2.pendingRequests = 0 :=
  pendingRequests_counter_spec.1 7 "u-2" sampleState idleInst
    [.inc, .inc, .dec, .dec] rfl rfl rfl
    (by
      intro p t hpt
      have hp : p = ([PendOp.inc, .inc, .dec, .dec] : List PendOp).take p.length := by
        rw [← hpt, List.take_left]
      rw [hp]
      rcases p.length with _ | _ | _ | _ | m <;>
        simp [countInc, countDec, List.take_succ_cons, List.filter]
    )
    (by decide)

end Moltbot
